import Mathlib

/-!
Verification development for the Maat schema-driven validator
(`validation.py`): a shallow embedding of its data model and of the
recursive validation engine `maat_scale`, together with theorems about
the frozen behavioural claims.

Modelling conventions
=====================
* Python values are embedded as the inductive `Value`
  (None / bool / int / str / list / dict with string keys).
  Floating-point values are outside the embedding, hence the
  `float_validation` validator and the `float` transformation of the
  source registries are not modelled; no theorem below concerns them,
  and statements about the transformation registry carry an explicit
  side condition excluding the name "float".
  Dictionary keys are modelled as strings (the engine only ever uses
  string keys); a dictionary is an association list in insertion
  order, mirroring how the Python dict preserves one binding per key.
* Exceptions are embedded as `PyErr`: the source's `Invalid` family,
  plus the Python-level `TypeError` / `ValueError` / `AttributeError`
  that the source code can also raise (and which its
  `except Invalid` handlers do not catch).
* Schema nodes (`SchemaNode`) carry the fields the source reads:
  `validator`, `args`, `nested`, `list`, `list_dicts`, `aso_array`,
  `optional`, `default_value`, `null_able`, `pre_transform`,
  `transform`, `skip_failed`.  Constraint arguments are modelled
  typed (`ValArgs`); a compiled regular expression is modelled as the
  pure matcher `String → Bool` it denotes, standing for
  `bool(re.match(pattern, s))`.
* The source is Python 2: `isinstance(val, int)` distinguishes `int`
  from `long`, so the embedded `isinstance` check requires the value
  to fit the 64-bit machine-int range; `bool` is a subtype of `int`.
-/

/-- A Python value: `None`, `bool`, `int`/`long` (unbounded `Int`),
`str`, `list`, or `dict` with string keys in insertion order. -/
inductive Value where
  | null : Value
  | bool (b : Bool) : Value
  | int (n : Int) : Value
  | str (s : String) : Value
  | list (items : List Value) : Value
  | dict (entries : List (String × Value)) : Value

/-- The exceptions the source module can raise: its own `Invalid`
family, and the Python built-ins that escape it. -/
inductive PyErr where
  | invalid (msg : String) : PyErr
  | typeError (msg : String) : PyErr
  | valueError (msg : String) : PyErr
  | attributeError (msg : String) : PyErr
  | runtimeError (msg : String) : PyErr
deriving DecidableEq

/-- `str(type(v))` as Python 2 prints it, e.g. `<type 'list'>`. -/
def pyTypeName : Value → String
  | .null => "<type \x27NoneType\x27>"
  | .bool _ => "<type \x27bool\x27>"
  | .int _ => "<type \x27int\x27>"
  | .str _ => "<type \x27str\x27>"
  | .list _ => "<type \x27list\x27>"
  | .dict _ => "<type \x27dict\x27>"

/-- Comma-separated join, as Python renders list/dict bodies. -/
def joinComma : List String → String
  | [] => ""
  | [s] => s
  | s :: rest => s ++ ", " ++ joinComma rest

/-- Escaping used by Python 2 `repr` on strings (quote character is
modelled as always `'`; the byte escapes beyond `\\`, `\'`, `\n`,
`\r`, `\t` are not modelled — no claim depends on them). -/
def pyEscapeChar (c : Char) : String :=
  if c = '\\' then "\\\\"
  else if c.toNat = 39 then "\\\x27"
  else if c = '\n' then "\\n"
  else if c = '\r' then "\\r"
  else if c = '\t' then "\\t"
  else String.mk [c]

/-- Python 2 `repr` of a string: quoted and escaped. -/
def pyReprStr (s : String) : String :=
  "\x27" ++ String.join (s.toList.map pyEscapeChar) ++ "\x27"

mutual
/-- Python 2 `str(v)`: identity on strings, `repr`-style rendering of
containers; this is what `'{0}'.format(v)` interpolates. -/
def pyStr : Value → String
  | .null => "None"
  | .bool true => "True"
  | .bool false => "False"
  | .int n => toString n
  | .str s => s
  | .list items => "[" ++ joinComma (pyReprList items) ++ "]"
  | .dict entries => "\x7b" ++ joinComma (pyReprEntries entries) ++ "\x7d"

/-- Python 2 `repr(v)`: like `pyStr` but quoting strings. -/
def pyRepr : Value → String
  | .str s => pyReprStr s
  | .null => "None"
  | .bool true => "True"
  | .bool false => "False"
  | .int n => toString n
  | .list items => "[" ++ joinComma (pyReprList items) ++ "]"
  | .dict entries => "\x7b" ++ joinComma (pyReprEntries entries) ++ "\x7d"

def pyReprList : List Value → List String
  | [] => []
  | v :: rest => pyRepr v :: pyReprList rest

def pyReprEntries : List (String × Value) → List String
  | [] => []
  | (k, v) :: rest => (pyReprStr k ++ ": " ++ pyRepr v) :: pyReprEntries rest
end

/-- `str(type(v))` without the wrapping, e.g. `int`, as Python uses in
`TypeError` texts such as `'int' object is not iterable`. -/
def pyShortType : Value → String
  | .null => "NoneType"
  | .bool _ => "bool"
  | .int _ => "int"
  | .str _ => "str"
  | .list _ => "list"
  | .dict _ => "dict"

/-- A compiled regular expression: the pattern text (used in error
messages) together with the pure matcher it denotes, standing for
`bool(re.match(pattern, s))`. -/
structure PyRegex where
  pattern : String
  accepts : String → Bool

/-- The keyword constraint arguments a schema node can pass to its
validator (`item['args']`), modelled typed.  Fields a given validator
does not read are simply ignored by it, as in the source signatures;
`key_min` / `key_max` exist in `dict_validation`'s signature but are
never read, which is mirrored here. -/
structure ValArgs where
  min_length : Option Int := none
  max_length : Option Int := none
  regex : Option PyRegex := none
  choices : Option (List String) := none
  min_amount : Option Int := none
  max_amount : Option Int := none
  cast : Bool := false
  key_min : Option Int := none
  key_max : Option Int := none
  key_regex : Option PyRegex := none

/-- Python 2 `isinstance(v, int)`: machine ints only (`long` fails the
check), and `bool` is a subtype of `int`; returns the numeric value
used in comparisons. -/
def pyIsInstInt : Value → Option Int
  | .bool b => some (if b then 1 else 0)
  | .int n => if -(2 ^ 63) ≤ n ∧ n ≤ 2 ^ 63 - 1 then some n else none
  | _ => none

/-- Parse a string as Python 2 `int(s)` does: surrounding whitespace,
an optional sign, then base-10 digits. -/
def parsePyInt (s : String) : Option Int :=
  let cs := (s.toList.dropWhile Char.isWhitespace).reverse.dropWhile Char.isWhitespace |>.reverse
  let signed : Bool × List Char :=
    match cs with
    | '-' :: rest => (true, rest)
    | '+' :: rest => (false, rest)
    | other => (false, other)
  match signed with
  | (neg, digits) =>
    if digits.isEmpty then none
    else if digits.all Char.isDigit then
      let n : Nat := digits.foldl (fun acc d => acc * 10 + (d.toNat - 48)) 0
      some (if neg then -(n : Int) else (n : Int))
    else none

/-- The Python built-in `int(v)` (the `int` transformation): identity
on ints, 0/1 on bools, base-10 parse on strings (`ValueError` on
failure), `TypeError` otherwise. -/
def pyIntCast : Value → Except PyErr Value
  | .int n => .ok (.int n)
  | .bool b => .ok (.int (if b then 1 else 0))
  | .str s =>
    match parsePyInt s with
    | some n => .ok (.int n)
    | none => .error (.valueError ("invalid literal for int() with base 10: " ++ pyReprStr s))
  | v => .error (.typeError ("int() argument must be a string or a number, not \x27" ++ pyShortType v ++ "\x27"))

/-- Iterate a value as a Python 2 `for` loop does: a list yields its
items, a string its characters, a dict its keys; anything else raises
`TypeError`. -/
def pyIter : Value → Except PyErr (List Value)
  | .list items => .ok items
  | .str s => .ok (s.toList.map fun c => .str (String.mk [c]))
  | .dict entries => .ok (entries.map fun e => .str e.1)
  | v => .error (.typeError ("\x27" ++ pyShortType v ++ "\x27 object is not iterable"))

/-- The Python built-in `list(v)` (the `list` transformation). -/
def pyListCast (v : Value) : Except PyErr Value :=
  match pyIter v with
  | .ok items => .ok (.list items)
  | .error e => .error e

/-- `str_validation` (validation.py lines 15-31): value must be a
string (`basestring`), then optional `min_length` / `max_length`
bounds on its character count, an optional regex checked with
`re.match` (anchored at position 0 only), and an optional choice set.
Each guard mirrors the source's `X is not None and <violation>`. -/
def str_validation (key : String) (val : Value) (a : ValArgs) : Except PyErr Value :=
  match val with
  | .str s =>
    if a.min_length.any fun mn => (s.length : Int) < mn then
      .error (.invalid (key ++ " contains invalid item " ++ s ++ ": less then minimal length of " ++ toString (a.min_length.getD 0)))
    else if a.max_length.any fun mx => (s.length : Int) > mx then
      .error (.invalid (key ++ " contains invalid item " ++ s ++ ": more then maximal length of " ++ toString (a.max_length.getD 0)))
    else if a.regex.any fun r => !(r.accepts s) then
      .error (.invalid (key ++ " contains invalid item " ++ s ++ ": does not adhere to regex rules " ++ (a.regex.map PyRegex.pattern).getD ""))
    else if a.choices.any fun cs => !(cs.contains s) then
      .error (.invalid (key ++ " contains invalid item " ++ s ++ ": not in valid choices " ++ pyStr (.list ((a.choices.getD []).map .str))))
    else .ok val
  | _ => .error (.invalid (key ++ " contains invalid item " ++ pyStr val ++ ": not of type string"))

/-- `int_validation` (validation.py lines 34-50): optional cast via
`int(val)` (cast failure reported as `Invalid`), then the
`isinstance(val, int)` check, then optional inclusive bounds.  The
upper-bound message repeats the source's `is less then` wording. -/
def int_validation (key : String) (val : Value) (a : ValArgs) : Except PyErr Value :=
  let casted : Except PyErr Value :=
    if a.cast then
      match pyIntCast val with
      | .ok v => .ok v
      | .error _ => .error (.invalid (key ++ " contains invalid item " ++ pyStr val ++ ": unable to cast to integer"))
    else .ok val
  match casted with
  | .error e => .error e
  | .ok v =>
    match pyIsInstInt v with
    | none => .error (.invalid (key ++ " contains invalid item " ++ pyStr v ++ ": not of type integer"))
    | some n =>
      if a.min_amount.any fun mn => n < mn then
        .error (.invalid (key ++ " contains invalid item " ++ pyStr v ++ ": integer is less then " ++ toString (a.min_amount.getD 0)))
      else if a.max_amount.any fun mx => n > mx then
        .error (.invalid (key ++ " contains invalid item " ++ pyStr v ++ ": integer is less then " ++ toString (a.max_amount.getD 0)))
      else .ok v

/-- `list_validation` (validation.py lines 72-82): value must be a
list, with optional inclusive bounds on its length. -/
def list_validation (key : String) (val : Value) (a : ValArgs) : Except PyErr Value :=
  match val with
  | .list items =>
    if a.min_amount.any fun mn => (items.length : Int) < mn then
      .error (.invalid (key ++ " contains invalid item " ++ pyStr val ++ ": contains less then minimal amount of " ++ toString (a.min_amount.getD 0)))
    else if a.max_amount.any fun mx => (items.length : Int) > mx then
      .error (.invalid (key ++ " contains invalid item " ++ pyStr val ++ ": contains more then maximum amount of " ++ toString (a.max_amount.getD 0)))
    else .ok val
  | _ => .error (.invalid (key ++ " contains invalid item " ++ pyStr val ++ ": not of type list"))

/-- `dict_validation` (validation.py lines 85-98): value must be a
dict, with optional inclusive bounds on its entry count and an
optional regex every key must match (`key_min` / `key_max` are
accepted and ignored, as in the source). -/
def dict_validation (key : String) (val : Value) (a : ValArgs) : Except PyErr Value :=
  match val with
  | .dict entries =>
    if a.min_amount.any fun mn => (entries.length : Int) < mn then
      .error (.invalid (key ++ " contains invalid item " ++ pyStr val ++ ": contains less then minimal amount of " ++ toString (a.min_amount.getD 0)))
    else if a.max_amount.any fun mx => (entries.length : Int) > mx then
      .error (.invalid (key ++ " contains invalid item " ++ pyStr val ++ ": contains more then maximum amount of " ++ toString (a.max_amount.getD 0)))
    else if a.key_regex.any fun r => !(entries.all fun e => r.accepts e.1) then
      .error (.invalid (key ++ ": has dictionary key that does not adhere to regex " ++ (a.key_regex.map PyRegex.pattern).getD ""))
    else .ok val
  | _ => .error (.invalid (key ++ ": is not a dictionary"))

/-- Fuelled all-occurrence replacement on character lists (Python
`str.replace` semantics: leftmost, non-overlapping); the fuel passed
by `pyStrReplace` always suffices, one unit per character. -/
def replaceAllF (pat repl : List Char) : Nat → List Char → List Char
  | 0, cs => cs
  | fuel + 1, cs =>
    match cs with
    | [] => []
    | c :: rest =>
      if pat ≠ [] ∧ pat.isPrefixOf cs then
        repl ++ replaceAllF pat repl fuel (cs.drop pat.length)
      else c :: replaceAllF pat repl fuel rest

/-- Python `s.replace(pat, repl)` (for non-empty `pat`). -/
def pyStrReplace (s pat repl : String) : String :=
  String.mk (replaceAllF pat.toList repl.toList s.toList.length s.toList)

/-- `UUID(s, version=4)` succeeds: after removing every `urn:` and
`uuid:`, stripping surrounding braces and removing hyphens, exactly 32
hex digits remain.  Passing `version=4` merely overwrites the version
bits, so it imposes no constraint — any 32-hex-digit string passes. -/
def pyUUID4Ok (s : String) : Bool :=
  let isBrace : Char → Bool := fun c => c.toNat = 123 || c.toNat = 125
  let isHex : Char → Bool := fun c =>
    c.isDigit || ('a' ≤ c && c ≤ 'f') || ('A' ≤ c && c ≤ 'F')
  let h1 := pyStrReplace (pyStrReplace s "urn:" "") "uuid:" ""
  let h2 := String.mk (((h1.toList.dropWhile isBrace).reverse.dropWhile isBrace).reverse)
  let h3 := pyStrReplace h2 "-" ""
  h3.length = 32 && h3.toList.all isHex

/-- `uuid_validation` (validation.py lines 101-107): non-strings raise
`TypeError`/`AttributeError` inside `UUID`, which the source catches
and converts to the same `Invalid`. -/
def uuid_validation (key : String) (val : Value) : Except PyErr Value :=
  match val with
  | .str s =>
    if pyUUID4Ok s then .ok val
    else .error (.invalid (key ++ " contains invalid item " ++ pyStr val ++ ": invalid UUID4"))
  | _ => .error (.invalid (key ++ " contains invalid item " ++ pyStr val ++ ": invalid UUID4"))

/-- The validator registry `registered_functions` (validation.py lines
110-117).  The `float` entry is omitted: floating-point values are
outside the embedding (see the header), and no claim concerns it.
`uuid_validation` ignores the constraint arguments, as its source
signature accepts none (surplus keyword arguments would raise
`TypeError` in Python; schemas passing args to `uuid` are outside the
embedding). -/
def registered_functions (name : String) :
    Option (String → Value → ValArgs → Except PyErr Value) :=
  if name = "int" then some int_validation
  else if name = "str" then some str_validation
  else if name = "uuid" then some (fun key val _ => uuid_validation key val)
  else if name = "list" then some list_validation
  else if name = "dict" then some dict_validation
  else none

/-- JSON string escaping as `json.dumps` performs it (the `\b`, `\f`
and `\u00XX` control escapes are not modelled — no claim depends on
the exact serialised text). -/
def jsonEscapeChar (c : Char) : String :=
  if c = '"' then "\\\""
  else if c = '\\' then "\\\\"
  else if c = '\n' then "\\n"
  else if c = '\t' then "\\t"
  else if c = '\r' then "\\r"
  else String.mk [c]

def jsonQuote (s : String) : String :=
  "\"" ++ String.join (s.toList.map jsonEscapeChar) ++ "\""

mutual
/-- `json.dumps(v)` (the `json` transformation) with the default
separators. -/
def jsonDumps : Value → String
  | .null => "null"
  | .bool true => "true"
  | .bool false => "false"
  | .int n => toString n
  | .str s => jsonQuote s
  | .list items => "[" ++ joinComma (jsonDumpsList items) ++ "]"
  | .dict entries => "\x7b" ++ joinComma (jsonDumpsEntries entries) ++ "\x7d"

def jsonDumpsList : List Value → List String
  | [] => []
  | v :: rest => jsonDumps v :: jsonDumpsList rest

def jsonDumpsEntries : List (String × Value) → List String
  | [] => []
  | (k, v) :: rest => (jsonQuote k ++ ": " ++ jsonDumps v) :: jsonDumpsEntries rest
end

def jIsWs (c : Char) : Bool :=
  c = ' ' || c = '\t' || c = '\n' || c = '\r'

def jskipWs (cs : List Char) : List Char := cs.dropWhile jIsWs

def hexVal (c : Char) : Option Nat :=
  if c.isDigit then some (c.toNat - 48)
  else if 'a' ≤ c ∧ c ≤ 'f' then some (c.toNat - 87)
  else if 'A' ≤ c ∧ c ≤ 'F' then some (c.toNat - 55)
  else none

/-- Body of a JSON string literal (after the opening quote): returns
the decoded characters and the remainder after the closing quote.
Surrogate-pair `\uXXXX` sequences are decoded code-unit-wise. -/
def jparseStrBody : List Char → Option (List Char × List Char)
  | [] => none
  | '"' :: rest => some ([], rest)
  | '\\' :: 'u' :: a :: b :: c :: d :: rest =>
    (match hexVal a, hexVal b, hexVal c, hexVal d with
     | some x1, some x2, some x3, some x4 =>
       (jparseStrBody rest).map fun p => (Char.ofNat (((x1 * 16 + x2) * 16 + x3) * 16 + x4) :: p.1, p.2)
     | _, _, _, _ => none)
  | '\\' :: e :: rest =>
    (match
       (if e = '"' then some '"' else if e = '\\' then some '\\'
        else if e = '/' then some '/' else if e = 'n' then some '\n'
        else if e = 't' then some '\t' else if e = 'r' then some '\r'
        else if e = 'b' then some (Char.ofNat 8) else if e = 'f' then some (Char.ofNat 12)
        else none) with
     | some ch => (jparseStrBody rest).map fun p => (ch :: p.1, p.2)
     | none => none)
  | c :: rest =>
    if c.toNat < 32 then none
    else (jparseStrBody rest).map fun p => (c :: p.1, p.2)

/-- A JSON number, restricted to integers: fractional or exponent
forms (which Python would decode to floats, outside this embedding)
are rejected; in every such case the surrounding `json.loads` call
fails either way, merely with a different message. -/
def jparseNum (cs : List Char) : Option (Value × List Char) :=
  let signed : Bool × List Char :=
    match cs with
    | '-' :: r => (true, r)
    | r => (false, r)
  match signed with
  | (neg, body) =>
    match body with
    | [] => none
    | c0 :: _ =>
      if !c0.isDigit then none
      else
        let ds := if c0 = '0' then ['0'] else body.takeWhile Char.isDigit
        let rest := body.drop ds.length
        match rest with
        | '.' :: _ => none
        | 'e' :: _ => none
        | 'E' :: _ => none
        | _ =>
          let n : Nat := ds.foldl (fun acc d => acc * 10 + (d.toNat - 48)) 0
          some (.int (if neg then -(n : Int) else (n : Int)), rest)

mutual
/-- One JSON value, fuelled (the fuel passed by `pyJsonLoads` exceeds
any possible recursion depth, since every recursive call follows the
consumption of at least one character). -/
def jparseVal : Nat → List Char → Option (Value × List Char)
  | 0, _ => none
  | fuel + 1, cs =>
    match jskipWs cs with
    | [] => none
    | c :: rest =>
      if c = 'n' then
        match rest with
        | 'u' :: 'l' :: 'l' :: r => some (.null, r)
        | _ => none
      else if c = 't' then
        match rest with
        | 'r' :: 'u' :: 'e' :: r => some (.bool true, r)
        | _ => none
      else if c = 'f' then
        match rest with
        | 'a' :: 'l' :: 's' :: 'e' :: r => some (.bool false, r)
        | _ => none
      else if c = '"' then
        (jparseStrBody rest).map fun p => (.str (String.mk p.1), p.2)
      else if c = '[' then
        match jskipWs rest with
        | ']' :: r => some (.list [], r)
        | _ => (jparseItems fuel rest).map fun p => (.list p.1, p.2)
      else if c.toNat = 123 then
        match jskipWs rest with
        | d :: r => if d.toNat = 125 then some (.dict [], r)
                    else (jparseMembers fuel rest).map fun p => (.dict p.1, p.2)
        | [] => none
      else jparseNum (c :: rest)

def jparseItems : Nat → List Char → Option (List Value × List Char)
  | 0, _ => none
  | fuel + 1, cs =>
    match jparseVal fuel cs with
    | none => none
    | some (v, rest) =>
      match jskipWs rest with
      | ',' :: r => (jparseItems fuel r).map fun p => (v :: p.1, p.2)
      | ']' :: r => some ([v], r)
      | _ => none

def jparseMembers : Nat → List Char → Option (List (String × Value) × List Char)
  | 0, _ => none
  | fuel + 1, cs =>
    match jskipWs cs with
    | '"' :: r =>
      match jparseStrBody r with
      | none => none
      | some (kcs, r2) =>
        match jskipWs r2 with
        | ':' :: r3 =>
          (match jparseVal fuel r3 with
           | none => none
           | some (v, r4) =>
             match jskipWs r4 with
             | ',' :: r5 => (jparseMembers fuel r5).map fun p => ((String.mk kcs, v) :: p.1, p.2)
             | d :: r5 => if d.toNat = 125 then some ([(String.mk kcs, v)], r5) else none
             | [] => none)
        | _ => none
    | _ => none
end

/-- `json.loads(v)` (the `json_dict` transformation): `TypeError` on
non-strings, `ValueError` on undecodable text.  Duplicate object keys
(where Python keeps the last binding) are outside the embedding. -/
def pyJsonLoads (v : Value) : Except PyErr Value :=
  match v with
  | .str s =>
    (match jparseVal (s.length + 2) (jskipWs s.toList) with
     | some (val, rest) =>
       if jskipWs rest = [] then .ok val else .error (.valueError "Extra data")
     | none => .error (.valueError "No JSON object could be decoded"))
  | _ => .error (.typeError "expected string or buffer")

/-- The transformation registry `registered_transformation`
(validation.py lines 119-126): `int`, `str`, `list`, `json`,
`json_dict`.  The `float` entry is omitted because floating-point
values are outside the embedding; theorems quantifying over
unregistered names therefore exclude the name "float". -/
def registered_transformation (name : String) :
    Option (Value → Except PyErr Value) :=
  if name = "int" then some pyIntCast
  else if name = "str" then some (fun v => .ok (.str (pyStr v)))
  else if name = "list" then some pyListCast
  else if name = "json" then some (fun v => .ok (.str (jsonDumps v)))
  else if name = "json_dict" then some pyJsonLoads
  else none

mutual
/-- A schema node (`item`): exactly the keys `maat_scale` reads.
`nested` holds the child schema when present; the source's list-only
idiom `'nested': True` (where the child value is never recursed into)
is represented by any child schema, e.g. `some []`. -/
inductive SchemaNode : Type where
  | mk
    (validator : Option String)
    (args : ValArgs)
    (nested : Option SchemaEntries)
    (list : Bool)
    (list_dicts : Bool)
    (aso_array : Bool)
    (optional : Bool)
    (default_value : Option Value)
    (null_able : Bool)
    (pre_transform : Option String)
    (transform : Option String)
    (skip_failed : Bool) : SchemaNode

/-- A schema tree (`counter_dict`): field name to node, in insertion
order (Python dicts carry one binding per key). -/
inductive SchemaEntries : Type where
  | nil : SchemaEntries
  | cons (key : String) (item : SchemaNode) (rest : SchemaEntries) : SchemaEntries
end

abbrev Schema := SchemaEntries

def SchemaNode.validator : SchemaNode → Option String
  | .mk v _ _ _ _ _ _ _ _ _ _ _ => v

def SchemaNode.args : SchemaNode → ValArgs
  | .mk _ a _ _ _ _ _ _ _ _ _ _ => a

def SchemaNode.nested : SchemaNode → Option Schema
  | .mk _ _ n _ _ _ _ _ _ _ _ _ => n

def SchemaNode.list : SchemaNode → Bool
  | .mk _ _ _ l _ _ _ _ _ _ _ _ => l

def SchemaNode.list_dicts : SchemaNode → Bool
  | .mk _ _ _ _ ld _ _ _ _ _ _ _ => ld

def SchemaNode.aso_array : SchemaNode → Bool
  | .mk _ _ _ _ _ aso _ _ _ _ _ _ => aso

def SchemaNode.optional : SchemaNode → Bool
  | .mk _ _ _ _ _ _ o _ _ _ _ _ => o

def SchemaNode.default_value : SchemaNode → Option Value
  | .mk _ _ _ _ _ _ _ d _ _ _ _ => d

def SchemaNode.null_able : SchemaNode → Bool
  | .mk _ _ _ _ _ _ _ _ nb _ _ _ => nb

def SchemaNode.pre_transform : SchemaNode → Option String
  | .mk _ _ _ _ _ _ _ _ _ p _ _ => p

def SchemaNode.transform : SchemaNode → Option String
  | .mk _ _ _ _ _ _ _ _ _ _ t _ => t

def SchemaNode.skip_failed : SchemaNode → Bool
  | .mk _ _ _ _ _ _ _ _ _ _ _ sk => sk

/-- `get_validation_func` (validation.py lines 129-133): look the
node's validator name up in the registry; a missing or unregistered
name raises `Invalid` (a node without `'validator'` raises `KeyError`
inside the `try`, caught and reported with `item.get('validator')`,
i.e. `None`). -/
def get_validation_func (item : SchemaNode) :
    Except PyErr (String → Value → ValArgs → Except PyErr Value) :=
  match item.validator with
  | some name =>
    (match registered_functions name with
     | some f => .ok f
     | none => .error (.invalid (name ++ " is not registered as validator")))
  | none => .error (.invalid "None is not registered as validator")

/-- `get_transformation_func` (validation.py lines 136-145): an unset
slot yields the identity function; a set but unregistered name raises
`Invalid`. -/
def get_transformation_func (item : SchemaNode) (type_transformation : String) :
    Except PyErr (Value → Except PyErr Value) :=
  let slot : Option String :=
    if type_transformation = "pre_transform" then item.pre_transform
    else if type_transformation = "transform" then item.transform
    else none
  match slot with
  | none => .ok (fun x => .ok x)
  | some name =>
    (match registered_transformation name with
     | some f => .ok f
     | none => .error (.invalid (name ++ " is not registered as transformation")))

/-- First binding of `key` in a dict's entry list (Python dicts hold
at most one binding per key). -/
def dictLookup : List (String × Value) → String → Option Value
  | [], _ => none
  | (k, v) :: rest, key => if k = key then some v else dictLookup rest key

/-- Outcome of the subscript `input_dict[key]`: the value, `KeyError`,
or `TypeError` (any non-dict — int, str, list, None, bool — raises
`TypeError` when subscripted with a string key). -/
inductive GetItemRes where
  | found (v : Value) : GetItemRes
  | keyErr : GetItemRes
  | typeErr : GetItemRes

def pyGetItem (input_dict : Value) (key : String) : GetItemRes :=
  match input_dict with
  | .dict entries =>
    (match dictLookup entries key with
     | some v => .found v
     | none => .keyErr)
  | _ => .typeErr

def valIsNull : Value → Bool
  | .null => true
  | _ => false

/-- One element of a plain `list` field (validation.py line 185):
pre-transform, validate with the node's own validator/args, then
post-transform. -/
def listElemStep (key : String)
    (vf : String → Value → ValArgs → Except PyErr Value) (a : ValArgs)
    (pre post : Value → Except PyErr Value) (e : Value) : Except PyErr Value :=
  match pre e with
  | .error er => .error er
  | .ok pe =>
    match vf key pe a with
    | .error er => .error er
    | .ok ve => post ve

/-- The `for nested_item in val` loop of the `list` branch
(validation.py lines 181-188): an element failing with `Invalid` is
dropped when `skip_failed` is set and re-raised otherwise; any error
outside the `Invalid` family always propagates. -/
def listLoop (key : String)
    (vf : String → Value → ValArgs → Except PyErr Value) (a : ValArgs)
    (pre post : Value → Except PyErr Value) (skip : Bool) :
    List Value → Except PyErr (List Value)
  | [] => .ok []
  | e :: es =>
    match listElemStep key vf a pre post e with
    | .ok v =>
      (match listLoop key vf a pre post skip es with
       | .error er => .error er
       | .ok t => .ok (v :: t))
    | .error (.invalid m) =>
      if skip then listLoop key vf a pre post skip es
      else .error (.invalid m)
    | .error er => .error er

/-- The `aso_array` per-entry loop (validation.py lines 212-220),
parameterised by the evaluator `recv` used for the (one level deeper)
recursive `maat_scale` call: the output carries the same keys, each
value replaced by the result of recursively validating it against the
shared child schema; failures always propagate (no skip here). -/
def asoLoopL (recv : Value → Schema → Except PyErr (List (String × Value)))
    (ns : Schema) : List (String × Value) → Except PyErr (List (String × Value))
  | [] => .ok []
  | (nk, nv) :: ps =>
    match recv nv ns with
    | .error e => .error e
    | .ok sub =>
      (match asoLoopL recv ns ps with
       | .error e => .error e
       | .ok t => .ok ((nk, .dict sub) :: t))

/-- The `list_dicts` per-element loop (validation.py lines 194-202),
parameterised like `asoLoopL`: each element is pre-transformed,
recursively validated against the shared child schema, then
post-transformed; `Invalid` failures are dropped under `skip_failed`,
anything else propagates. -/
def listDictsLoopL (recv : Value → Schema → Except PyErr (List (String × Value)))
    (item : SchemaNode) (ns : Schema) (pre post : Value → Except PyErr Value) :
    List Value → Except PyErr (List Value)
  | [] => .ok []
  | e :: es =>
    match
      ((match pre e with
        | .error er => .error er
        | .ok pe =>
          match recv pe ns with
          | .error er => .error er
          | .ok sub => post (.dict sub)) : Except PyErr Value) with
    | .ok v =>
      (match listDictsLoopL recv item ns pre post es with
       | .error er => .error er
       | .ok t => .ok (v :: t))
    | .error (.invalid m) =>
      if item.skip_failed then listDictsLoopL recv item ns pre post es
      else .error (.invalid m)
    | .error er => .error er

/-- One loop body of `maat_scale` (validation.py lines 153-220),
parameterised by the evaluator `recv` used for nested recursion:
presence resolution (default / optional / missing-key /
not-a-dictionary), the null short-circuit, registry resolution, then
the branch dispatch on `nested` / `list` / `list_dicts` /
`aso_array`.  Returns `none` when the field contributes no binding.
In the recursing branches the source reads
`counter_dict[key]['nested']`, which equals `item['nested']` because
a Python dict holds one binding per key; the embedding therefore
recurses on the iterated node's own `nested`. -/
def processKeyL (recv : Value → Schema → Except PyErr (List (String × Value)))
    (input_dict : Value) (key : String) (item : SchemaNode) :
    Except PyErr (Option Value) :=
  match pyGetItem input_dict key with
  | .typeErr =>
    .error (.invalid (pyStr input_dict ++ " not a dictionary but is of type " ++ pyTypeName input_dict))
  | .keyErr =>
    (match item.default_value with
     | some d => .ok (some d)
     | none =>
       if item.optional then .ok none
       else .error (.invalid (key ++ ": missing key")))
  | .found val =>
    if valIsNull val && item.null_able then .ok (some .null)
    else
      match get_validation_func item with
      | .error e => .error e
      | .ok validation_func =>
        match get_transformation_func item "pre_transform" with
        | .error e => .error e
        | .ok pre_transformation =>
          match get_transformation_func item "transform" with
          | .error e => .error e
          | .ok post_transformation =>
            match item.nested with
            | none =>
              -- leaf: post(validate(key, pre(val), **args))
              (match pre_transformation val with
               | .error e => .error e
               | .ok pv =>
                 match validation_func key pv item.args with
                 | .error e => .error e
                 | .ok vv =>
                   match post_transformation vv with
                   | .error e => .error e
                   | .ok res => .ok (some res))
            | some ns =>
              if item.list then
                -- list branch: key is bound to [] before the loop
                match pyIter val with
                | .error e => .error e
                | .ok elems =>
                  (match listLoop key validation_func item.args pre_transformation post_transformation item.skip_failed elems with
                   | .error e => .error e
                   | .ok items => .ok (some (.list items)))
              else if item.list_dicts then
                -- whole-value validation first; the key is only bound
                -- inside the loop, so an empty iterable leaves it out
                match validation_func key val item.args with
                | .error e => .error e
                | .ok _ =>
                  match pyIter val with
                  | .error e => .error e
                  | .ok [] => .ok none
                  | .ok (e0 :: erest) =>
                    (match listDictsLoopL recv item ns pre_transformation post_transformation (e0 :: erest) with
                     | .error e => .error e
                     | .ok items => .ok (some (.list items)))
              else if !item.aso_array then
                -- plain nested recursion (input_dict[key] is val)
                match pre_transformation val with
                | .error e => .error e
                | .ok pv =>
                  (match recv pv ns with
                   | .error e => .error e
                   | .ok sub =>
                     match post_transformation (.dict sub) with
                     | .error e => .error e
                     | .ok res => .ok (some res))
              else
                -- aso_array: whole-value validation, then recurse per
                -- entry; the key is only bound inside the loop, and no
                -- transformation is ever applied
                match validation_func key val item.args with
                | .error e => .error e
                | .ok _ =>
                  match val with
                  | .dict [] => .ok none
                  | .dict (p0 :: prest) =>
                    (match asoLoopL recv ns (p0 :: prest) with
                     | .error e => .error e
                     | .ok outPairs => .ok (some (.dict outPairs)))
                  | other =>
                    .error (.attributeError ("\x27" ++ pyShortType other ++ "\x27 object has no attribute \x27iteritems\x27"))

/-- The `for key, item in counter_dict.iteritems()` loop
(validation.py lines 150-221), parameterised by the evaluator used
one nesting level deeper: each field either contributes a binding, is
skipped, or aborts the whole call with its error (in iteration order;
nothing of the partial output survives a failure). -/
def scaleEntriesL (recv : Value → Schema → Except PyErr (List (String × Value)))
    (input_dict : Value) : Schema → Except PyErr (List (String × Value))
  | .nil => .ok []
  | .cons key item rest =>
    match processKeyL recv input_dict key item with
    | .error e => .error e
    | .ok none => scaleEntriesL recv input_dict rest
    | .ok (some v) =>
      (match scaleEntriesL recv input_dict rest with
       | .error e => .error e
       | .ok tail => .ok ((key, v) :: tail))

/-- Fuelled evaluator for `maat_scale`: one unit of fuel per nesting
level.  Exhausted fuel stands for CPython's recursion-limit
`RuntimeError`; the `maat_scale` wrapper below always supplies enough
fuel for its schema's depth, so the branch is unreachable from it
(CPython's fixed limit of ~1000 levels, by contrast, could fire on an
absurdly deep schema — that limit is not modelled). -/
def maat_scaleF : Nat → Value → Schema → Except PyErr (List (String × Value))
  | 0, _, _ => .error (.runtimeError "maximum recursion depth exceeded")
  | fuel + 1, input_dict, counter_dict =>
    scaleEntriesL (maat_scaleF fuel) input_dict counter_dict

mutual
/-- Fuel needed below a node: one level per `nested` schema. -/
def nodeFuel : SchemaNode → Nat
  | .mk _ _ none _ _ _ _ _ _ _ _ _ => 0
  | .mk _ _ (some ns) _ _ _ _ _ _ _ _ _ => entriesFuel ns + 1

def entriesFuel : Schema → Nat
  | .nil => 0
  | .cons _ item rest => max (nodeFuel item) (entriesFuel rest)
end

/-- `maat_scale(input_dict, counter_dict)` (validation.py lines
148-221): iterate the schema's fields in order, resolve each field
per its node, and assemble the output tree. -/
def maat_scale (input_dict : Value) (counter_dict : Schema) :
    Except PyErr (List (String × Value)) :=
  maat_scaleF (entriesFuel counter_dict + 1) input_dict counter_dict

/-- The field names a schema defines, in order. -/
def SchemaEntries.keys : Schema → List String
  | .nil => []
  | .cons k _ rest => k :: SchemaEntries.keys rest

/-- First node bound to `key` (Python dicts hold one binding per key). -/
def SchemaEntries.findNode : Schema → String → Option SchemaNode
  | .nil, _ => none
  | .cons k item rest, key => if k = key then some item else SchemaEntries.findNode rest key

/-- The same node with both transformation slots unset (used to state
that a branch never applies its transformations). -/
def SchemaNode.stripTransforms : SchemaNode → SchemaNode
  | .mk v a n l ld aso o d nb _ _ sk => .mk v a n l ld aso o d nb none none sk

mutual
/-- Restrictions under which re-validation is the identity (used by
the amended idempotence claim): no default value, no transformations,
no skip-on-failure, `list_dicts` nodes use the `list` validator,
`list_dicts` / `aso_array` nodes are optional (their key is dropped
from the output on an empty collection, so re-validation must be
allowed to skip it), and child schemas are likewise restricted. -/
def nodeRestricted : SchemaNode → Bool
  | .mk v _ nested _ ld aso o d _ pre post sk =>
    d.isNone && pre.isNone && post.isNone && !sk &&
    (!ld || v == some "list") &&
    (!(ld || aso) || o) &&
    (match nested with
     | none => true
     | some ns => entriesRestricted ns)

/-- `nodeRestricted` over a schema, plus per-level key uniqueness
(Python dicts cannot repeat a key; association lists can). -/
def entriesRestricted : Schema → Bool
  | .nil => true
  | .cons k item rest =>
    !((SchemaEntries.keys rest).contains k) && nodeRestricted item && entriesRestricted rest
end

/-- Induction along a schema's entry spine (the mutual recursor has
several motives, so the `induction` tactic needs this derived
eliminator). -/
theorem schemaEntriesInd {motive : Schema → Prop} (nil : motive .nil)
    (cons : ∀ k item rest, motive rest → motive (.cons k item rest)) :
    ∀ t, motive t
  | .nil => nil
  | .cons k item rest => cons k item rest (schemaEntriesInd nil cons rest)

theorem dictLookup_eq_none_iff (l : List (String × Value)) (k : String) :
    dictLookup l k = none ↔ k ∉ l.map Prod.fst := by
  induction l with
  | nil => simp [dictLookup]
  | cons p rest ih =>
    obtain ⟨k', v⟩ := p
    by_cases hk : k' = k
    · subst hk
      simp [dictLookup]
    · simp [dictLookup, hk, ih, Ne.symm hk]

/-- Keys of a successful per-level output all come from that level's
schema (whatever evaluator handles the nested levels). -/
theorem scaleEntriesL_keys_sub
    (recv : Value → Schema → Except PyErr (List (String × Value))) (input : Value) :
    ∀ (entries : Schema) (out : List (String × Value)),
      scaleEntriesL recv input entries = .ok out →
      ∀ k, k ∈ out.map Prod.fst → k ∈ entries.keys := by
  intro entries
  induction entries using schemaEntriesInd with
  | nil =>
    intro out h k hk
    simp only [scaleEntriesL] at h
    cases h
    simp at hk
  | cons key item rest ih =>
    intro out h k hk
    simp only [scaleEntriesL] at h
    cases hp : processKeyL recv input key item with
    | error e => rw [hp] at h; cases h
    | ok r =>
      rw [hp] at h
      cases r with
      | none =>
        have := ih out h k hk
        simp [SchemaEntries.keys]
        exact Or.inr this
      | some v =>
        cases ht : scaleEntriesL recv input rest with
        | error e => rw [ht] at h; cases h
        | ok tail =>
          rw [ht] at h
          cases h
          simp only [List.map_cons, List.mem_cons] at hk
          simp only [SchemaEntries.keys, List.mem_cons]
          cases hk with
          | inl h1 => exact Or.inl h1
          | inr h2 => exact Or.inr (ih tail ht k h2)

/-- Per-field correspondence: on a successful level, the field of a
(uniquely keyed) schema entry is bound in the output exactly as its
`processKeyL` outcome dictates. -/
theorem scaleEntriesL_find
    (recv : Value → Schema → Except PyErr (List (String × Value))) (input : Value) :
    ∀ (entries : Schema) (out : List (String × Value)) (k : String) (node : SchemaNode),
      entries.keys.Nodup →
      entries.findNode k = some node →
      scaleEntriesL recv input entries = .ok out →
      ∃ r, processKeyL recv input k node = .ok r ∧
        ((r = none ∧ k ∉ out.map Prod.fst) ∨
         (∃ v, r = some v ∧ dictLookup out k = some v)) := by
  intro entries
  induction entries using schemaEntriesInd with
  | nil =>
    intro out k node _ hfind _
    simp [SchemaEntries.findNode] at hfind
  | cons key item rest ih =>
    intro out k node hnodup hfind h
    simp only [SchemaEntries.keys, List.nodup_cons] at hnodup
    obtain ⟨hkey, hnodup'⟩ := hnodup
    simp only [SchemaEntries.findNode] at hfind
    simp only [scaleEntriesL] at h
    by_cases hk : key = k
    · subst hk
      rw [if_pos rfl] at hfind
      injection hfind with heq
      subst heq
      cases hp : processKeyL recv input key item with
      | error e => rw [hp] at h; cases h
      | ok r =>
        rw [hp] at h
        refine ⟨r, rfl, ?_⟩
        cases r with
        | none =>
          refine Or.inl ⟨rfl, fun hmem => hkey ?_⟩
          exact scaleEntriesL_keys_sub recv input rest out h key hmem
        | some v =>
          cases ht : scaleEntriesL recv input rest with
          | error e => rw [ht] at h; cases h
          | ok tail =>
            rw [ht] at h
            cases h
            exact Or.inr ⟨v, rfl, by simp [dictLookup]⟩
    · rw [if_neg hk] at hfind
      cases hp : processKeyL recv input key item with
      | error e => rw [hp] at h; cases h
      | ok r =>
        rw [hp] at h
        cases r with
        | none => exact ih out k node hnodup' hfind h
        | some v =>
          cases ht : scaleEntriesL recv input rest with
          | error e => rw [ht] at h; cases h
          | ok tail =>
            rw [ht] at h
            cases h
            obtain ⟨r, hr, hcase⟩ := ih tail k node hnodup' hfind ht
            refine ⟨r, hr, ?_⟩
            cases hcase with
            | inl hc =>
              refine Or.inl ⟨hc.1, fun hmem => ?_⟩
              simp only [List.map_cons, List.mem_cons] at hmem
              cases hmem with
              | inl h1 => exact hk h1.symm
              | inr h2 => exact hc.2 h2
            | inr hc =>
              obtain ⟨v', hv', hl⟩ := hc
              exact Or.inr ⟨v', hv', by simpa [dictLookup, hk] using hl⟩

theorem maat_scaleF_succ (fuel : Nat) (input : Value) (cd : Schema) :
    maat_scaleF (fuel + 1) input cd = scaleEntriesL (maat_scaleF fuel) input cd := rfl

theorem maat_scale_def (input : Value) (cd : Schema) :
    maat_scale input cd = scaleEntriesL (maat_scaleF (entriesFuel cd)) input cd := rfl

/-- C1: on any success of `maat_scale`, every key of the output
mapping comes from the schema, so an input field not named in the
schema is absent from the output regardless of its value.  The
statement is quantified over all inputs and schemas, and each nesting
level of an output is itself produced by a `maat_scale`-style
invocation on that level's schema (`scaleEntriesL`), so this covers
every nesting level the engine builds. -/
theorem maat_scale_output_keys_from_schema
    (input : Value) (cd : Schema) (out : List (String × Value))
    (h : maat_scale input cd = .ok out) :
    ∀ k, k ∈ out.map Prod.fst → k ∈ cd.keys := by
  rw [maat_scale_def] at h
  exact scaleEntriesL_keys_sub (maat_scaleF (entriesFuel cd)) input cd out h

theorem maat_scale_output_keys_from_schema_witness :
    maat_scale (.dict [("id", .int 5), ("junk", .str "z")])
        (.cons "id" (.mk (some "int") {} none false false false false none false none none false) .nil)
      = .ok [("id", .int 5)] ∧
    ("id" : String) ∈
      (SchemaEntries.cons "id" (.mk (some "int") {} none false false false false none false none none false) .nil).keys :=
  ⟨rfl,
   maat_scale_output_keys_from_schema
     (.dict [("id", .int 5), ("junk", .str "z")])
     (.cons "id" (.mk (some "int") {} none false false false false none false none none false) .nil)
     [("id", .int 5)] rfl "id" (by simp)⟩

/-- C2: for a schema field whose key is missing from the input
mapping — with `default_value` set, any success binds the key to
exactly the default (no validator or transformation touches it); with
only `optional` set, any success omits the key and the other fields
still validate; with neither, no success exists, and on the field's
own schema the error is precisely the `Invalid` missing-key message
naming the key. -/
theorem maat_scale_missing_key_policy
    (es : List (String × Value)) (cd : Schema) (k : String) (node : SchemaNode)
    (hfind : cd.findNode k = some node)
    (hnodup : cd.keys.Nodup)
    (hmiss : dictLookup es k = none) :
    (∀ d, node.default_value = some d →
      ∀ out, maat_scale (.dict es) cd = .ok out → dictLookup out k = some d) ∧
    (node.default_value = none → node.optional = true →
      ∀ out, maat_scale (.dict es) cd = .ok out → k ∉ out.map Prod.fst) ∧
    (node.default_value = none → node.optional = false →
      ∀ out, maat_scale (.dict es) cd ≠ .ok out) ∧
    (node.default_value = none → node.optional = false →
      maat_scale (.dict es) (.cons k node .nil) = .error (.invalid (k ++ ": missing key"))) := by
  have hkey : processKeyL (maat_scaleF (entriesFuel cd)) (.dict es) k node =
      (match node.default_value with
       | some d => .ok (some d)
       | none =>
         if node.optional then .ok none
         else .error (.invalid (k ++ ": missing key"))) := by
    simp [processKeyL, pyGetItem, hmiss]
  refine ⟨?_, ?_, ?_, ?_⟩
  · intro d hd out hok
    rw [maat_scale_def] at hok
    obtain ⟨r, hr, hcase⟩ := scaleEntriesL_find _ _ cd out k node hnodup hfind hok
    rw [hkey, hd] at hr
    cases hr
    rcases hcase with ⟨hnone, _⟩ | ⟨v, hv, hl⟩
    · cases hnone
    · cases hv; exact hl
  · intro hd hopt out hok
    rw [maat_scale_def] at hok
    obtain ⟨r, hr, hcase⟩ := scaleEntriesL_find _ _ cd out k node hnodup hfind hok
    rw [hkey, hd, if_pos hopt] at hr
    cases hr
    rcases hcase with ⟨_, habs⟩ | ⟨v, hv, _⟩
    · exact habs
    · cases hv
  · intro hd hopt out hok
    rw [maat_scale_def] at hok
    obtain ⟨r, hr, _⟩ := scaleEntriesL_find _ _ cd out k node hnodup hfind hok
    rw [hkey, hd, if_neg (by simp [hopt])] at hr
    cases hr
  · intro hd hopt
    have h1 : processKeyL (maat_scaleF (entriesFuel (SchemaEntries.cons k node .nil)))
        (.dict es) k node = .error (.invalid (k ++ ": missing key")) := by
      simp [processKeyL, pyGetItem, hmiss, hd, hopt]
    rw [maat_scale_def]
    simp [scaleEntriesL, h1]

theorem maat_scale_missing_key_policy_witness :
    dictLookup [("other", Value.int 1)] "t" = none ∧
    maat_scale (.dict [("other", .int 1)])
        (.cons "t" (.mk (some "str") {} none false false false false (some (.str "banana")) false none none false) .nil)
      = .ok [("t", .str "banana")] ∧
    dictLookup [("t", Value.str "banana")] "t" = some (.str "banana") :=
  ⟨rfl, rfl,
   (maat_scale_missing_key_policy [("other", .int 1)]
      (.cons "t" (.mk (some "str") {} none false false false false (some (.str "banana")) false none none false) .nil)
      "t" (.mk (some "str") {} none false false false false (some (.str "banana")) false none none false)
      rfl (by decide) rfl).1
     (.str "banana") rfl [("t", .str "banana")] rfl⟩

/-- C7: with both `min_length` and `max_length` set and no other
constraints, `str_validation` succeeds — returning the string
unchanged — precisely when `min_length ≤ L ≤ max_length` for its
length `L`, whatever the content (the content is universally
quantified). -/
theorem str_validation_length_window (key s : String) (mn mx : Int) :
    str_validation key (.str s) { min_length := some mn, max_length := some mx } = .ok (.str s)
    ↔ (mn ≤ (s.length : Int) ∧ (s.length : Int) ≤ mx) := by
  simp only [str_validation, Option.any_some, Option.any_none, Bool.not_eq_true,
    decide_eq_true_eq]
  split_ifs with h1 h2 h3
  · constructor
    · intro h; cases h
    · intro h; omega
  · constructor
    · intro h; cases h
    · intro h; omega
  · exact h3.elim
  · constructor
    · intro _; omega
    · intro _; rfl

theorem str_validation_length_window_witness :
    str_validation "name" (.str "John Doe") { min_length := some 1, max_length := some 35 }
      = .ok (.str "John Doe") :=
  (str_validation_length_window "name" "John Doe" 1 35).2 (by decide)

/-- C8: looking up an unset transformation slot (`pre_transform` or
`transform`) yields the identity function and never fails; looking up
a slot set to a name absent from the transformation registry fails
with the `Invalid` unregistered-transformation message naming it.
(The side condition `name ≠ "float"` marks the one registry entry the
embedding omits — floats are outside it; every other name is
unregistered in the model exactly when it is unregistered in the
source.) -/
theorem get_transformation_func_policy (item : SchemaNode) :
    (item.pre_transform = none →
      get_transformation_func item "pre_transform" = .ok (fun x => .ok x)) ∧
    (item.transform = none →
      get_transformation_func item "transform" = .ok (fun x => .ok x)) ∧
    (∀ name, name ≠ "float" → item.pre_transform = some name →
      registered_transformation name = none →
      get_transformation_func item "pre_transform"
        = .error (.invalid (name ++ " is not registered as transformation"))) ∧
    (∀ name, name ≠ "float" → item.transform = some name →
      registered_transformation name = none →
      get_transformation_func item "transform"
        = .error (.invalid (name ++ " is not registered as transformation"))) := by
  refine ⟨?_, ?_, ?_, ?_⟩
  · intro h; simp [get_transformation_func, h]
  · intro h; simp [get_transformation_func, h]
  · intro name _ hset hreg; simp [get_transformation_func, hset, hreg]
  · intro name _ hset hreg; simp [get_transformation_func, hset, hreg]

theorem get_transformation_func_policy_witness :
    get_transformation_func
        (.mk (some "int") {} none false false false false none false none (some "integer") false)
        "pre_transform" = .ok (fun x => .ok x) ∧
    get_transformation_func
        (.mk (some "int") {} none false false false false none false none (some "integer") false)
        "transform" = .error (.invalid ("integer" ++ " is not registered as transformation")) :=
  ⟨(get_transformation_func_policy
      (.mk (some "int") {} none false false false false none false none (some "integer") false)).1 rfl,
   (get_transformation_func_policy
      (.mk (some "int") {} none false false false false none false none (some "integer") false)).2.2.2
     "integer" (by decide) rfl rfl⟩

/-- C9: empty-collection asymmetry.  A `list` field given `[]` binds
its key to `[]` (the source assigns `validated_items[key] = []`
before the loop); a `list_dicts` field given `[]` and an `aso_array`
field given `{}` (passing the field-level validator) leave the key
out entirely (the source only assigns the key inside the loop). -/
theorem maat_scale_empty_collection_asymmetry
    (k : String) (item : SchemaNode) (ns : Schema)
    (vf : String → Value → ValArgs → Except PyErr Value)
    (pre post : Value → Except PyErr Value)
    (hn : item.nested = some ns)
    (hvf : get_validation_func item = .ok vf)
    (hpre : get_transformation_func item "pre_transform" = .ok pre)
    (hpost : get_transformation_func item "transform" = .ok post) :
    (item.list = true →
      maat_scale (.dict [(k, .list [])]) (.cons k item .nil) = .ok [(k, .list [])]) ∧
    (item.list = false → item.list_dicts = true →
      (∃ w, vf k (.list []) item.args = .ok w) →
      maat_scale (.dict [(k, .list [])]) (.cons k item .nil) = .ok []) ∧
    (item.list = false → item.list_dicts = false → item.aso_array = true →
      (∃ w, vf k (.dict []) item.args = .ok w) →
      maat_scale (.dict [(k, .dict [])]) (.cons k item .nil) = .ok []) := by
  refine ⟨?_, ?_, ?_⟩
  · intro hl
    rw [maat_scale_def]
    have hp : processKeyL (maat_scaleF (entriesFuel (SchemaEntries.cons k item .nil)))
        (.dict [(k, .list [])]) k item = .ok (some (.list [])) := by
      simp [processKeyL, pyGetItem, dictLookup, valIsNull, hvf, hpre, hpost, hn, hl,
        pyIter, listLoop]
    simp [scaleEntriesL, hp]
  · intro hl hld ⟨w, hw⟩
    rw [maat_scale_def]
    have hp : processKeyL (maat_scaleF (entriesFuel (SchemaEntries.cons k item .nil)))
        (.dict [(k, .list [])]) k item = .ok none := by
      simp [processKeyL, pyGetItem, dictLookup, valIsNull, hvf, hpre, hpost, hn, hl, hld,
        hw, pyIter]
    simp [scaleEntriesL, hp]
  · intro hl hld haso ⟨w, hw⟩
    rw [maat_scale_def]
    have hp : processKeyL (maat_scaleF (entriesFuel (SchemaEntries.cons k item .nil)))
        (.dict [(k, .dict [])]) k item = .ok none := by
      simp [processKeyL, pyGetItem, dictLookup, valIsNull, hvf, hpre, hpost, hn, hl, hld,
        haso, hw]
    simp [scaleEntriesL, hp]

theorem maat_scale_empty_collection_asymmetry_witness :
    maat_scale (.dict [("a", .list [])])
        (.cons "a" (.mk (some "str") {} (some .nil) true false false false none false none none false) .nil)
      = .ok [("a", .list [])] ∧
    maat_scale (.dict [("b", .list [])])
        (.cons "b" (.mk (some "list") {} (some .nil) false true false false none false none none false) .nil)
      = .ok [] ∧
    maat_scale (.dict [("c", .dict [])])
        (.cons "c" (.mk (some "dict") {} (some .nil) false false true false none false none none false) .nil)
      = .ok [] :=
  ⟨(maat_scale_empty_collection_asymmetry "a"
      (.mk (some "str") {} (some .nil) true false false false none false none none false)
      .nil str_validation (fun x => .ok x) (fun x => .ok x) rfl rfl rfl rfl).1 rfl,
   (maat_scale_empty_collection_asymmetry "b"
      (.mk (some "list") {} (some .nil) false true false false none false none none false)
      .nil list_validation (fun x => .ok x) (fun x => .ok x) rfl rfl rfl rfl).2.1 rfl rfl
     ⟨.list [], rfl⟩,
   (maat_scale_empty_collection_asymmetry "c"
      (.mk (some "dict") {} (some .nil) false false true false none false none none false)
      .nil dict_validation (fun x => .ok x) (fun x => .ok x) rfl rfl rfl rfl).2.2 rfl rfl rfl
     ⟨.dict [], rfl⟩⟩

/-- C10: on an `aso_array` field the node's `pre_transform` and
`transform` are never applied — to the whole mapping or to any
recursion result — even when both are set (to registered names, so
that their resolution succeeds): the whole call is unchanged by
erasing both slots, so the output values are exactly the raw
recursive-validation results. -/
theorem aso_array_ignores_transforms
    (input : Value) (k : String) (item : SchemaNode) (ns : Schema)
    (hn : item.nested = some ns) (hl : item.list = false) (hld : item.list_dicts = false)
    (haso : item.aso_array = true)
    (hpre : ∀ t, item.pre_transform = some t → (registered_transformation t).isSome = true)
    (hpost : ∀ t, item.transform = some t → (registered_transformation t).isSome = true) :
    maat_scale input (.cons k item .nil)
      = maat_scale input (.cons k item.stripTransforms .nil) := by
  obtain ⟨v, a, n, l, ld, aso, o, d, nb, pre, post, sk⟩ := item
  simp only [SchemaNode.nested] at hn
  simp only [SchemaNode.list] at hl
  simp only [SchemaNode.list_dicts] at hld
  simp only [SchemaNode.aso_array] at haso
  simp only [SchemaNode.pre_transform] at hpre
  simp only [SchemaNode.transform] at hpost
  subst hn hl hld haso
  rw [maat_scale_def, maat_scale_def]
  have hfuel : entriesFuel (SchemaEntries.cons k (.mk v a (some ns) false false true o d nb pre post sk) .nil)
      = entriesFuel (SchemaEntries.cons k ((SchemaNode.mk v a (some ns) false false true o d nb pre post sk).stripTransforms) .nil) := by
    simp [entriesFuel, nodeFuel, SchemaNode.stripTransforms]
  rw [← hfuel]
  have hkeyeq : processKeyL (maat_scaleF (entriesFuel (SchemaEntries.cons k (.mk v a (some ns) false false true o d nb pre post sk) .nil)))
      input k (.mk v a (some ns) false false true o d nb pre post sk)
      = processKeyL (maat_scaleF (entriesFuel (SchemaEntries.cons k (.mk v a (some ns) false false true o d nb pre post sk) .nil)))
      input k ((SchemaNode.mk v a (some ns) false false true o d nb pre post sk).stripTransforms) := by
    simp only [SchemaNode.stripTransforms]
    cases hg : pyGetItem input k with
    | typeErr => simp [processKeyL, hg]
    | keyErr => simp [processKeyL, hg, SchemaNode.default_value, SchemaNode.optional]
    | found val =>
      simp only [processKeyL, hg, SchemaNode.null_able, SchemaNode.validator,
        SchemaNode.args, SchemaNode.nested, SchemaNode.list, SchemaNode.list_dicts,
        SchemaNode.aso_array, SchemaNode.pre_transform, SchemaNode.transform,
        SchemaNode.skip_failed]
      cases hnull : valIsNull val && nb with
      | true => simp
      | false =>
        simp only [Bool.false_eq_true, ite_false]
        cases hvf : get_validation_func (SchemaNode.mk v a (some ns) false false true o d nb pre post sk) with
        | error e =>
          have hvf' : get_validation_func (SchemaNode.mk v a (some ns) false false true o d nb none none sk) = .error e := by
            simpa [get_validation_func, SchemaNode.validator] using hvf
          simp [hvf', hvf]
        | ok vf =>
          have hvf' : get_validation_func (SchemaNode.mk v a (some ns) false false true o d nb none none sk) = .ok vf := by
            simpa [get_validation_func, SchemaNode.validator] using hvf
          simp only [hvf, hvf']
          cases pre with
          | none =>
            simp only [get_transformation_func, SchemaNode.pre_transform, SchemaNode.transform]
            cases post with
            | none => simp
            | some t =>
              obtain ⟨f, hf⟩ := Option.isSome_iff_exists.1 (hpost t rfl)
              simp [hf]
          | some t =>
            obtain ⟨f, hf⟩ := Option.isSome_iff_exists.1 (hpre t rfl)
            simp only [get_transformation_func, SchemaNode.pre_transform, SchemaNode.transform]
            cases post with
            | none => simp [hf]
            | some t2 =>
              obtain ⟨f2, hf2⟩ := Option.isSome_iff_exists.1 (hpost t2 rfl)
              simp [hf, hf2]
  simp [scaleEntriesL, hkeyeq]

theorem aso_array_ignores_transforms_witness :
    maat_scale (.dict [("p", .dict [("x", .dict [("id", .int 5)])])])
        (.cons "p" (.mk (some "dict") {}
          (some (.cons "id" (.mk (some "int") {} none false false false false none false none none false) .nil))
          false false true false none false (some "int") (some "json") false) .nil)
      = maat_scale (.dict [("p", .dict [("x", .dict [("id", .int 5)])])])
        (.cons "p" ((SchemaNode.mk (some "dict") {}
          (some (.cons "id" (.mk (some "int") {} none false false false false none false none none false) .nil))
          false false true false none false (some "int") (some "json") false).stripTransforms) .nil) :=
  aso_array_ignores_transforms
    (.dict [("p", .dict [("x", .dict [("id", .int 5)])])]) "p"
    (.mk (some "dict") {}
      (some (.cons "id" (.mk (some "int") {} none false false false false none false none none false) .nil))
      false false true false none false (some "int") (some "json") false)
    (.cons "id" (.mk (some "int") {} none false false false false none false none none false) .nil)
    rfl rfl rfl rfl
    (fun t ht => by cases ht; rfl)
    (fun t ht => by cases ht; rfl)

/-- C5 counterexample: a non-iterable value at a `list` field makes
`maat_scale` raise a `TypeError` (the bare `for nested_item in val`),
which is not a member of the `Invalid` family — refuting the claim
that every failure is. -/
theorem maat_scale_list_typeerror_counterexample :
    maat_scale (.dict [("a", .int 5)])
        (.cons "a" (.mk (some "str") { min_length := some 2 } (some .nil)
          true false false false none false none none true) .nil)
      = .error (.typeError "\x27int\x27 object is not iterable") := rfl

theorem pyGetItem_non_dict (val : Value) (k : String) (h : ∀ ds, val ≠ .dict ds) :
    pyGetItem val k = .typeErr := by
  cases val with
  | dict ds => exact absurd rfl (h ds)
  | null => rfl
  | bool b => rfl
  | int n => rfl
  | str s => rfl
  | list items => rfl

/-- C5 amended: a failing `maat_scale` raises a `PyErr` that is not
always in the `Invalid` family.  Specifically: (a) a non-iterable
value at a `list` field propagates the iteration `TypeError` as-is,
outside the family and naming only the value's type; (b) a
non-mapping value at a plain nested field (with a non-empty child
schema and no pre-transform) is caught and re-raised as an `Invalid`
whose message names the offending value and its type — but not the
field key. -/
theorem maat_scale_error_family_amended :
    (∀ (k : String) (item : SchemaNode) (ns : Schema) (val : Value)
       (es : List (String × Value))
       (vf : String → Value → ValArgs → Except PyErr Value)
       (pre post : Value → Except PyErr Value) (msg : String),
      dictLookup es k = some val →
      item.nested = some ns → item.list = true →
      (valIsNull val && item.null_able) = false →
      get_validation_func item = .ok vf →
      get_transformation_func item "pre_transform" = .ok pre →
      get_transformation_func item "transform" = .ok post →
      pyIter val = .error (.typeError msg) →
      maat_scale (.dict es) (.cons k item .nil) = .error (.typeError msg)) ∧
    (∀ (k : String) (item : SchemaNode) (k2 : String) (n2 : SchemaNode) (rest : Schema)
       (val : Value) (es : List (String × Value))
       (vf : String → Value → ValArgs → Except PyErr Value)
       (post : Value → Except PyErr Value),
      dictLookup es k = some val →
      item.nested = some (.cons k2 n2 rest) →
      item.list = false → item.list_dicts = false → item.aso_array = false →
      (valIsNull val && item.null_able) = false →
      item.pre_transform = none →
      get_validation_func item = .ok vf →
      get_transformation_func item "transform" = .ok post →
      (∀ ds, val ≠ .dict ds) →
      maat_scale (.dict es) (.cons k item .nil)
        = .error (.invalid (pyStr val ++ " not a dictionary but is of type " ++ pyTypeName val))) := by
  constructor
  · intro k item ns val es vf pre post msg hlook hn hl hnull hvf hpre hpost hiter
    rw [maat_scale_def]
    have hp : processKeyL (maat_scaleF (entriesFuel (SchemaEntries.cons k item .nil)))
        (.dict es) k item = .error (.typeError msg) := by
      simp [processKeyL, pyGetItem, hlook, hnull, hvf, hpre, hpost, hn, hl, hiter]
    simp [scaleEntriesL, hp]
  · intro k item k2 n2 rest val es vf post hlook hn hl hld haso hnull hpre0 hvf hpost hnd
    obtain ⟨v, a, n, l, ld, aso, o, d, nb, pre, tr, sk⟩ := item
    simp only [SchemaNode.nested] at hn
    simp only [SchemaNode.list] at hl
    simp only [SchemaNode.list_dicts] at hld
    simp only [SchemaNode.aso_array] at haso
    simp only [SchemaNode.pre_transform] at hpre0
    subst hn hl hld haso hpre0
    rw [maat_scale_def]
    have hfuel : entriesFuel (SchemaEntries.cons k
        (.mk v a (some (SchemaEntries.cons k2 n2 rest)) false false false o d nb none tr sk) .nil)
        = entriesFuel (SchemaEntries.cons k2 n2 rest) + 1 := by
      simp [entriesFuel, nodeFuel]
    have hrec : maat_scaleF (entriesFuel (SchemaEntries.cons k2 n2 rest) + 1) val
        (SchemaEntries.cons k2 n2 rest)
        = .error (.invalid (pyStr val ++ " not a dictionary but is of type " ++ pyTypeName val)) := by
      rw [maat_scaleF_succ]
      have hp2 : processKeyL (maat_scaleF (entriesFuel (SchemaEntries.cons k2 n2 rest))) val k2 n2
          = .error (.invalid (pyStr val ++ " not a dictionary but is of type " ++ pyTypeName val)) := by
        simp [processKeyL, pyGetItem_non_dict val k2 hnd]
      simp [scaleEntriesL, hp2]
    have hp : processKeyL (maat_scaleF (entriesFuel (SchemaEntries.cons k
        (.mk v a (some (SchemaEntries.cons k2 n2 rest)) false false false o d nb none tr sk) .nil)))
        (.dict es) k (.mk v a (some (SchemaEntries.cons k2 n2 rest)) false false false o d nb none tr sk)
        = .error (.invalid (pyStr val ++ " not a dictionary but is of type " ++ pyTypeName val)) := by
      rw [hfuel]
      simp only [processKeyL, pyGetItem, hlook]
      simp only [SchemaNode.null_able] at hnull ⊢
      simp only [hnull, Bool.false_eq_true, ite_false]
      simp only [hvf]
      simp only [get_transformation_func, SchemaNode.pre_transform, SchemaNode.transform] at hpost ⊢
      simp only [SchemaNode.nested, SchemaNode.list, SchemaNode.list_dicts, SchemaNode.aso_array,
        SchemaNode.args]
      have hpost' : (match tr with
          | none => Except.ok (fun x => Except.ok x)
          | some name =>
            match registered_transformation name with
            | some f => Except.ok f
            | none => Except.error (PyErr.invalid (name ++ " is not registered as transformation")))
          = Except.ok post := by
        simpa using hpost
      simp [hrec, hpost']
    simp [scaleEntriesL, hp]

theorem maat_scale_error_family_amended_witness :
    maat_scale (.dict [("a", .int 5)])
        (.cons "a" (.mk (some "str") {} (some .nil) true false false false none false none none false) .nil)
      = .error (.typeError "\x27int\x27 object is not iterable") ∧
    maat_scale (.dict [("addr", .int 7)])
        (.cons "addr" (.mk (some "dict") {}
          (some (.cons "id" (.mk (some "int") {} none false false false false none false none none false) .nil))
          false false false false none false none none false) .nil)
      = .error (.invalid ("7" ++ " not a dictionary but is of type " ++ "<type \x27int\x27>")) :=
  ⟨maat_scale_error_family_amended.1 "a"
     (.mk (some "str") {} (some .nil) true false false false none false none none false)
     .nil (.int 5) [("a", .int 5)] str_validation (fun x => .ok x) (fun x => .ok x)
     "\x27int\x27 object is not iterable" rfl rfl rfl rfl rfl rfl rfl rfl,
   maat_scale_error_family_amended.2 "addr"
     (.mk (some "dict") {}
       (some (.cons "id" (.mk (some "int") {} none false false false false none false none none false) .nil))
       false false false false none false none none false)
     "id" (.mk (some "int") {} none false false false false none false none none false) .nil
     (.int 7) [("addr", .int 7)] dict_validation (fun x => .ok x)
     rfl rfl rfl rfl rfl rfl rfl rfl rfl (fun _ h => Value.noConfusion h)⟩

/-- C4 counterexample: a node with `list` true but no `nested` key is
dispatched to the leaf branch (`item.get('nested') is None` is checked
first), so the whole input list is handed to the scalar validator and
the call fails even though `skip_failed` is true and one element would
pass — refuting "for every node with list true, when skip_failed is
true, validate succeeds". -/
theorem maat_scale_list_flag_counterexample :
    maat_scale (.dict [("a", .list [.str "ok", .int 5])])
        (.cons "a" (.mk (some "str") {} none true false false false none false none none true) .nil)
      = .error (.invalid "a contains invalid item [\x27ok\x27, 5]: not of type string") := rfl

theorem listLoop_skip_filterMap (key : String)
    (vf : String → Value → ValArgs → Except PyErr Value) (a : ValArgs)
    (pre post : Value → Except PyErr Value) :
    ∀ xs : List Value,
      (∀ e ∈ xs, (∃ v, listElemStep key vf a pre post e = .ok v) ∨
                 (∃ m, listElemStep key vf a pre post e = .error (.invalid m))) →
      listLoop key vf a pre post true xs
        = .ok (xs.filterMap fun e => (listElemStep key vf a pre post e).toOption) := by
  intro xs
  induction xs with
  | nil => intro _; simp [listLoop]
  | cons e es ih =>
    intro h
    have he := h e (by simp)
    have hes := ih (fun g hg => h g (by simp [hg]))
    rcases he with ⟨v, hv⟩ | ⟨m, hm⟩
    · simp [listLoop, hv, hes, Except.toOption]
    · simp [listLoop, hm, hes, Except.toOption]

theorem listLoop_noskip_aborts (key : String)
    (vf : String → Value → ValArgs → Except PyErr Value) (a : ValArgs)
    (pre post : Value → Except PyErr Value) :
    ∀ (good : List Value) (e : Value) (tl : List Value) (err : PyErr),
      (∀ g ∈ good, ∃ v, listElemStep key vf a pre post g = .ok v) →
      listElemStep key vf a pre post e = .error err →
      listLoop key vf a pre post false (good ++ e :: tl) = .error err := by
  intro good
  induction good with
  | nil =>
    intro e tl err _ he
    cases err with
    | invalid m => simp [listLoop, he]
    | typeError m => simp [listLoop, he]
    | valueError m => simp [listLoop, he]
    | attributeError m => simp [listLoop, he]
    | runtimeError m => simp [listLoop, he]
  | cons g gs ih =>
    intro e tl err hgood he
    obtain ⟨v, hv⟩ := hgood g (by simp)
    have := ih e tl err (fun g' hg' => hgood g' (by simp [hg'])) he
    simp [listLoop, hv, this]

/-- C4 amended: the list policy applies to nodes with `list` true
*and* `nested` present (without `nested` the node is a leaf, as the
counterexample shows).  On an input list: with `skip_failed` true,
provided every element's pre-transform → validate → post-transform
pipeline either succeeds or fails inside the `Invalid` family, the
call succeeds and the output list holds exactly the successful
results in input order (its length is the number of passing
elements); with `skip_failed` unset, the first failing element makes
the whole call fail with that element's error (a pipeline error
outside the `Invalid` family — e.g. a cast `ValueError` from a
transform — aborts the call even when `skip_failed` is true, since
`except Invalid` does not catch it). -/
theorem maat_scale_list_skip_amended :
    (∀ (k : String) (item : SchemaNode) (ns : Schema) (xs : List Value)
       (es : List (String × Value))
       (vf : String → Value → ValArgs → Except PyErr Value)
       (pre post : Value → Except PyErr Value),
      dictLookup es k = some (.list xs) →
      item.nested = some ns → item.list = true → item.skip_failed = true →
      get_validation_func item = .ok vf →
      get_transformation_func item "pre_transform" = .ok pre →
      get_transformation_func item "transform" = .ok post →
      (∀ e ∈ xs, (∃ v, listElemStep k vf item.args pre post e = .ok v) ∨
                 (∃ m, listElemStep k vf item.args pre post e = .error (.invalid m))) →
      maat_scale (.dict es) (.cons k item .nil)
        = .ok [(k, .list (xs.filterMap fun e => (listElemStep k vf item.args pre post e).toOption))]) ∧
    (∀ (k : String) (item : SchemaNode) (ns : Schema) (good : List Value) (e : Value)
       (tl : List Value) (es : List (String × Value))
       (vf : String → Value → ValArgs → Except PyErr Value)
       (pre post : Value → Except PyErr Value) (err : PyErr),
      dictLookup es k = some (.list (good ++ e :: tl)) →
      item.nested = some ns → item.list = true → item.skip_failed = false →
      get_validation_func item = .ok vf →
      get_transformation_func item "pre_transform" = .ok pre →
      get_transformation_func item "transform" = .ok post →
      (∀ g ∈ good, ∃ v, listElemStep k vf item.args pre post g = .ok v) →
      listElemStep k vf item.args pre post e = .error err →
      maat_scale (.dict es) (.cons k item .nil) = .error err) := by
  constructor
  · intro k item ns xs es vf pre post hlook hn hl hsk hvf hpre hpost helems
    rw [maat_scale_def]
    have hloop := listLoop_skip_filterMap k vf item.args pre post xs helems
    have hp : processKeyL (maat_scaleF (entriesFuel (SchemaEntries.cons k item .nil)))
        (.dict es) k item
        = .ok (some (.list (xs.filterMap fun e => (listElemStep k vf item.args pre post e).toOption))) := by
      simp [processKeyL, pyGetItem, hlook, valIsNull, hvf, hpre, hpost, hn, hl, hsk, pyIter, hloop]
    simp [scaleEntriesL, hp]
  · intro k item ns good e tl es vf pre post err hlook hn hl hsk hvf hpre hpost hgood he
    rw [maat_scale_def]
    have hloop := listLoop_noskip_aborts k vf item.args pre post good e tl err hgood he
    have hp : processKeyL (maat_scaleF (entriesFuel (SchemaEntries.cons k item .nil)))
        (.dict es) k item = .error err := by
      simp [processKeyL, pyGetItem, hlook, valIsNull, hvf, hpre, hpost, hn, hl, hsk, pyIter, hloop]
    simp [scaleEntriesL, hp]

theorem maat_scale_list_skip_amended_witness :
    maat_scale (.dict [("a", .list [.str "ok", .str "x", .str "yes"])])
        (.cons "a" (.mk (some "str") { min_length := some 2 } (some .nil)
          true false false false none false none none true) .nil)
      = .ok [("a", .list ([Value.str "ok", .str "x", .str "yes"].filterMap fun e =>
          (listElemStep "a" str_validation { min_length := some 2 }
            (fun x => .ok x) (fun x => .ok x) e).toOption))] ∧
    maat_scale (.dict [("b", .list [.str "ok", .str "x"])])
        (.cons "b" (.mk (some "str") { min_length := some 2 } (some .nil)
          true false false false none false none none false) .nil)
      = .error (.invalid "b contains invalid item x: less then minimal length of 2") :=
  ⟨maat_scale_list_skip_amended.1 "a"
     (.mk (some "str") { min_length := some 2 } (some .nil) true false false false none false none none true)
     .nil [.str "ok", .str "x", .str "yes"] [("a", .list [.str "ok", .str "x", .str "yes"])]
     str_validation (fun x => .ok x) (fun x => .ok x)
     rfl rfl rfl rfl rfl rfl rfl
     (by
       intro e he
       simp only [List.mem_cons, List.not_mem_nil, or_false] at he
       rcases he with rfl | rfl | rfl
       · exact Or.inl ⟨.str "ok", rfl⟩
       · exact Or.inr ⟨"a contains invalid item x: less then minimal length of 2", rfl⟩
       · exact Or.inl ⟨.str "yes", rfl⟩),
   maat_scale_list_skip_amended.2 "b"
     (.mk (some "str") { min_length := some 2 } (some .nil) true false false false none false none none false)
     .nil [.str "ok"] (.str "x") [] [("b", .list [.str "ok", .str "x"])]
     str_validation (fun x => .ok x) (fun x => .ok x)
     (.invalid "b contains invalid item x: less then minimal length of 2")
     rfl rfl rfl rfl rfl rfl rfl
     (by
       intro g hg
       simp only [List.mem_cons, List.not_mem_nil, or_false] at hg
       rcases hg with rfl
       exact ⟨.str "ok", rfl⟩)
     rfl⟩

theorem asoLoopL_agree
    (recv recv' : Value → Schema → Except PyErr (List (String × Value)))
    (ns : Schema) (h : ∀ x, recv x ns = recv' x ns) :
    ∀ ps, asoLoopL recv ns ps = asoLoopL recv' ns ps := by
  intro ps
  induction ps with
  | nil => rfl
  | cons p rest ih =>
    obtain ⟨nk, nv⟩ := p
    simp [asoLoopL, h nv, ih]

theorem listDictsLoopL_agree
    (recv recv' : Value → Schema → Except PyErr (List (String × Value)))
    (ns : Schema) (h : ∀ x, recv x ns = recv' x ns) :
    ∀ (item : SchemaNode) (pre post : Value → Except PyErr Value) (elems : List Value),
      listDictsLoopL recv item ns pre post elems
        = listDictsLoopL recv' item ns pre post elems := by
  intro item pre post elems
  induction elems with
  | nil => rfl
  | cons e es ih =>
    simp only [listDictsLoopL]
    cases hp : pre e with
    | error er => simp [hp, ih]
    | ok pe => simp [hp, h pe, ih]

theorem processKeyL_agree
    (recv recv' : Value → Schema → Except PyErr (List (String × Value)))
    (input : Value) (k : String) (item : SchemaNode)
    (h : ∀ x ns, item.nested = some ns → recv x ns = recv' x ns) :
    processKeyL recv input k item = processKeyL recv' input k item := by
  obtain ⟨v, a, n, l, ld, aso, o, d, nb, pre, post, sk⟩ := item
  simp only [SchemaNode.nested] at h
  cases n with
  | none => rfl
  | some ns =>
    have h' : ∀ x, recv x ns = recv' x ns := fun x => h x ns rfl
    simp only [processKeyL, SchemaNode.nested]
    repeat' split
    all_goals try rfl
    all_goals
      simp_all [listDictsLoopL_agree recv recv' ns h', asoLoopL_agree recv recv' ns h', h']

theorem scaleEntriesL_fuel_agree
    (recv recv' : Value → Schema → Except PyErr (List (String × Value))) (input : Value) :
    ∀ entries : Schema,
      (∀ x ns, entriesFuel ns < entriesFuel entries → recv x ns = recv' x ns) →
      scaleEntriesL recv input entries = scaleEntriesL recv' input entries := by
  intro entries
  induction entries using schemaEntriesInd with
  | nil => intro _; rfl
  | cons k item rest ih =>
    intro h
    have hitem : ∀ x ns, item.nested = some ns → recv x ns = recv' x ns := by
      intro x ns hn
      apply h
      obtain ⟨v, a, n, l, ld, aso, o, d, nb, pre, post, sk⟩ := item
      simp only [SchemaNode.nested] at hn
      subst hn
      simp only [entriesFuel, nodeFuel]
      omega
    have hrest := ih (fun x ns hlt => h x ns (by
      simp only [entriesFuel] at hlt ⊢
      omega))
    simp only [scaleEntriesL]
    rw [processKeyL_agree recv recv' input k item hitem, hrest]

/-- Fuel irrelevance: any fuel strictly above the schema's nesting
depth computes the same result, so the `maat_scale` wrapper's fuel
choice is immaterial (its recursion-limit branch is dead code). -/
theorem maat_scaleF_stable :
    ∀ (f g : Nat) (cd : Schema) (input : Value),
      entriesFuel cd < f → entriesFuel cd < g →
      maat_scaleF f input cd = maat_scaleF g input cd := by
  intro f
  induction f using Nat.strong_induction_on with
  | _ f ih =>
    intro g cd input hf hg
    obtain ⟨f', rfl⟩ : ∃ f', f = f' + 1 := ⟨f - 1, by omega⟩
    obtain ⟨g', rfl⟩ : ∃ g', g = g' + 1 := ⟨g - 1, by omega⟩
    rw [maat_scaleF_succ, maat_scaleF_succ]
    apply scaleEntriesL_fuel_agree
    intro x ns hlt
    exact ih f' (by omega) g' ns x (by omega) (by omega)

theorem maat_scaleF_eq_maat_scale (f : Nat) (cd : Schema) (input : Value)
    (h : entriesFuel cd < f) :
    maat_scaleF f input cd = maat_scale input cd :=
  maat_scaleF_stable f (entriesFuel cd + 1) cd input h (by omega)

/-- C3 counterexample: an `aso_array` field whose input is the empty
mapping (which passes the field-level `dict` validator — the call
succeeds) produces an output without the key at all, not an empty
mapping at the key: the claim's empty-mapping case is false. -/
theorem maat_scale_aso_empty_counterexample :
    maat_scale (.dict [("a", .dict [])])
        (.cons "a" (.mk (some "dict") {} (some .nil) false false true false none false none none false) .nil)
      = .ok [] ∧
    dictLookup ([] : List (String × Value)) "a" = none :=
  ⟨rfl, rfl⟩

theorem asoLoopL_ok
    (recv : Value → Schema → Except PyErr (List (String × Value))) (ns : Schema) :
    ∀ (ps ops : List (String × Value)), asoLoopL recv ns ps = .ok ops →
      List.Forall₂ (fun p q =>
        q.1 = p.1 ∧ ∃ sub, recv p.2 ns = .ok sub ∧ q.2 = .dict sub) ps ops := by
  intro ps
  induction ps with
  | nil =>
    intro ops h
    simp only [asoLoopL] at h
    cases h
    exact List.Forall₂.nil
  | cons p rest ih =>
    intro ops h
    obtain ⟨nk, nv⟩ := p
    simp only [asoLoopL] at h
    cases hrec : recv nv ns with
    | error e => rw [hrec] at h; cases h
    | ok sub =>
      rw [hrec] at h
      cases ht : asoLoopL recv ns rest with
      | error e => rw [ht] at h; cases h
      | ok t =>
        rw [ht] at h
        cases h
        exact List.Forall₂.cons ⟨rfl, sub, hrec, rfl⟩ (ih t ht)

theorem forall2_fst_eq
    {R : (String × Value) → (String × Value) → Prop}
    (hR : ∀ p q, R p q → q.1 = p.1) :
    ∀ {ps ops : List (String × Value)}, List.Forall₂ R ps ops →
      ops.map Prod.fst = ps.map Prod.fst := by
  intro ps ops h
  induction h with
  | nil => rfl
  | cons h1 _ ih => simp [hR _ _ h1, ih]

theorem findNode_nodeFuel_le :
    ∀ (cd : Schema) (k : String) (item : SchemaNode),
      cd.findNode k = some item → nodeFuel item ≤ entriesFuel cd := by
  intro cd
  induction cd using schemaEntriesInd with
  | nil => intro k item h; simp [SchemaEntries.findNode] at h
  | cons k' it rest ih =>
    intro k item h
    simp only [SchemaEntries.findNode] at h
    by_cases hk : k' = k
    · rw [if_pos hk] at h
      injection h with h
      subst h
      simp only [entriesFuel]
      omega
    · rw [if_neg hk] at h
      have := ih k item h
      simp only [entriesFuel]
      omega

/-- C3 amended: for an `aso_array` field whose input value is a
mapping (and whose validation succeeds as part of a successful call):
if the mapping is non-empty, the output binds the field to a mapping
with exactly the input's keys in order, each value being the result
of recursively validating the input value against the node's shared
`nested` schema; if the mapping is empty, the key is absent from the
output (the source only creates the binding inside the iteration
loop). -/
theorem maat_scale_aso_array_amended
    (es : List (String × Value)) (cd : Schema) (k : String) (item : SchemaNode)
    (ns : Schema) (pairs : List (String × Value)) (out : List (String × Value))
    (hfind : cd.findNode k = some item) (hnodup : cd.keys.Nodup)
    (hlook : dictLookup es k = some (.dict pairs))
    (hn : item.nested = some ns) (hl : item.list = false) (hld : item.list_dicts = false)
    (haso : item.aso_array = true)
    (hok : maat_scale (.dict es) cd = .ok out) :
    (pairs = [] → k ∉ out.map Prod.fst) ∧
    (pairs ≠ [] → ∃ ops, dictLookup out k = some (.dict ops) ∧
      ops.map Prod.fst = pairs.map Prod.fst ∧
      List.Forall₂ (fun p q =>
        q.1 = p.1 ∧ ∃ sub, maat_scale p.2 ns = .ok sub ∧ q.2 = .dict sub) pairs ops) := by
  rw [maat_scale_def] at hok
  obtain ⟨r, hr, hcase⟩ :=
    scaleEntriesL_find (maat_scaleF (entriesFuel cd)) (.dict es) cd out k item hnodup hfind hok
  have hfuel : entriesFuel ns < entriesFuel cd := by
    have := findNode_nodeFuel_le cd k item hfind
    obtain ⟨v, a, n, l, ld, aso, o, d, nb, pre, post, sk⟩ := item
    simp only [SchemaNode.nested] at hn
    subst hn
    simp only [nodeFuel] at this
    omega
  obtain ⟨v, a, n, l, ld, aso, o, d, nb, pre, post, sk⟩ := item
  simp only [SchemaNode.nested] at hn
  simp only [SchemaNode.list] at hl
  simp only [SchemaNode.list_dicts] at hld
  simp only [SchemaNode.aso_array] at haso
  subst hn hl hld haso
  simp only [processKeyL, pyGetItem, hlook, valIsNull, Bool.false_and, Bool.false_eq_true,
    ite_false, SchemaNode.null_able, SchemaNode.nested, SchemaNode.list, SchemaNode.list_dicts,
    SchemaNode.aso_array, SchemaNode.args] at hr
  cases hgv : get_validation_func (SchemaNode.mk v a (some ns) false false true o d nb pre post sk) with
  | error e => rw [hgv] at hr; cases hr
  | ok vf =>
    rw [hgv] at hr
    cases hgp : get_transformation_func (SchemaNode.mk v a (some ns) false false true o d nb pre post sk) "pre_transform" with
    | error e => rw [hgp] at hr; cases hr
    | ok preT =>
      rw [hgp] at hr
      cases hgt : get_transformation_func (SchemaNode.mk v a (some ns) false false true o d nb pre post sk) "transform" with
      | error e => rw [hgt] at hr; cases hr
      | ok postT =>
        rw [hgt] at hr
        simp only at hr
        cases hw : vf k (.dict pairs) a with
        | error e => rw [hw] at hr; cases hr
        | ok w =>
          rw [hw] at hr
          cases pairs with
          | nil =>
            simp only at hr
            cases hr
            constructor
            · intro _
              rcases hcase with ⟨_, habs⟩ | ⟨v', hv', _⟩
              · exact habs
              · cases hv'
            · intro hne; exact absurd rfl hne
          | cons p0 prest =>
            simp only at hr
            cases hal : asoLoopL (maat_scaleF (entriesFuel cd)) ns (p0 :: prest) with
            | error e => rw [hal] at hr; cases hr
            | ok ops =>
              rw [hal] at hr
              cases hr
              constructor
              · intro hemp; cases hemp
              · intro _
                rcases hcase with ⟨hnone, _⟩ | ⟨v', hv', hl'⟩
                · cases hnone
                · injection hv' with hv'
                  subst hv'
                  refine ⟨ops, hl', ?_, ?_⟩
                  · exact forall2_fst_eq (fun p q hpq => hpq.1)
                      (asoLoopL_ok (maat_scaleF (entriesFuel cd)) ns (p0 :: prest) ops hal)
                  · refine List.Forall₂.imp ?_
                      (asoLoopL_ok (maat_scaleF (entriesFuel cd)) ns (p0 :: prest) ops hal)
                    rintro p q ⟨h1, sub, hs, h2⟩
                    exact ⟨h1, sub, by rw [← maat_scaleF_eq_maat_scale (entriesFuel cd) ns p.2 hfuel]; exact hs, h2⟩

theorem maat_scale_aso_array_amended_witness :
    (([("7", Value.dict [("id", Value.int 7)])] : List (String × Value)) = [] →
      ("people" : String) ∉
        ([("people", Value.dict [("7", .dict [("id", .int 7)])])].map Prod.fst)) ∧
    (([("7", Value.dict [("id", Value.int 7)])] : List (String × Value)) ≠ [] →
      ∃ ops, dictLookup [("people", Value.dict [("7", .dict [("id", .int 7)])])] "people"
          = some (.dict ops) ∧
        ops.map Prod.fst = [("7", Value.dict [("id", Value.int 7)])].map Prod.fst ∧
        List.Forall₂ (fun p q =>
          q.1 = p.1 ∧ ∃ sub, maat_scale p.2
            (.cons "id" (.mk (some "int") {} none false false false false none false none none false) .nil)
            = .ok sub ∧ q.2 = .dict sub)
          [("7", Value.dict [("id", Value.int 7)])] ops) :=
  maat_scale_aso_array_amended
    [("people", .dict [("7", .dict [("id", .int 7)])])]
    (.cons "people" (.mk (some "dict") {}
      (some (.cons "id" (.mk (some "int") {} none false false false false none false none none false) .nil))
      false false true false none false none none false) .nil)
    "people"
    (.mk (some "dict") {}
      (some (.cons "id" (.mk (some "int") {} none false false false false none false none none false) .nil))
      false false true false none false none none false)
    (.cons "id" (.mk (some "int") {} none false false false false none false none none false) .nil)
    [("7", .dict [("id", .int 7)])]
    [("people", .dict [("7", .dict [("id", .int 7)])])]
    rfl (by decide) rfl rfl rfl rfl rfl rfl

/-- C6 counterexample: validation is not idempotent.  A field missing
from input takes its `default_value` verbatim (no validation), so a
default that its own validator rejects yields an output on which
re-validation fails outright. -/
theorem maat_scale_idempotence_counterexample :
    maat_scale (.dict [])
        (.cons "a" (.mk (some "int") {} none false false false false (some (.str "x")) false none none false) .nil)
      = .ok [("a", .str "x")] ∧
    maat_scale (.dict [("a", .str "x")])
        (.cons "a" (.mk (some "int") {} none false false false false (some (.str "x")) false none none false) .nil)
      = .error (.invalid "a contains invalid item x: not of type integer") :=
  ⟨rfl, rfl⟩

theorem pyIntCast_result (val cv : Value) (h : pyIntCast val = .ok cv) : ∃ m, cv = .int m := by
  cases val with
  | int n => simp [pyIntCast] at h; exact ⟨n, h.symm⟩
  | bool b => simp [pyIntCast] at h; exact ⟨if b then 1 else 0, h.symm⟩
  | str s =>
    simp only [pyIntCast] at h
    cases hp : parsePyInt s with
    | none => rw [hp] at h; cases h
    | some m => rw [hp] at h; cases h; exact ⟨m, rfl⟩
  | null => simp [pyIntCast] at h
  | list items => simp [pyIntCast] at h
  | dict entries => simp [pyIntCast] at h

theorem pyIsInstInt_not_null (val : Value) (n : Int) (h : pyIsInstInt val = some n) :
    valIsNull val = false := by
  cases val <;> simp_all [pyIsInstInt, valIsNull]

theorem str_validation_ok (k : String) (val : Value) (a : ValArgs) (v' : Value)
    (h : str_validation k val a = .ok v') :
    v' = val ∧ valIsNull v' = false ∧ str_validation k v' a = .ok v' := by
  cases val with
  | str s =>
    simp only [str_validation] at h
    split_ifs at h with h1 h2 h3 h4
    injection h with h
    subst h
    refine ⟨rfl, rfl, ?_⟩
    simp only [str_validation]
    rw [if_neg h1, if_neg h2, if_neg h3, if_neg h4]
  | null => simp [str_validation] at h
  | bool b => simp [str_validation] at h
  | int n => simp [str_validation] at h
  | list items => simp [str_validation] at h
  | dict entries => simp [str_validation] at h

theorem int_validation_ok (k : String) (val : Value) (a : ValArgs) (v' : Value)
    (h : int_validation k val a = .ok v') :
    valIsNull v' = false ∧ int_validation k v' a = .ok v' := by
  cases hc : a.cast with
  | false =>
    simp only [int_validation, hc, Bool.false_eq_true, ite_false] at h
    cases hi : pyIsInstInt val with
    | none => simp only [hi] at h; cases h
    | some n =>
      simp only [hi] at h
      split_ifs at h with h1 h2
      injection h with h
      subst h
      refine ⟨pyIsInstInt_not_null val n hi, ?_⟩
      simp only [int_validation, hc, Bool.false_eq_true, ite_false, hi]
      rw [if_neg h1, if_neg h2]
  | true =>
    simp only [int_validation, hc, ite_true] at h
    cases hpc : pyIntCast val with
    | error e => simp only [hpc] at h; cases h
    | ok cv =>
      obtain ⟨m, rfl⟩ := pyIntCast_result val cv hpc
      simp only [hpc] at h
      cases hi : pyIsInstInt (.int m) with
      | none => simp only [hi] at h; cases h
      | some n =>
        simp only [hi] at h
        split_ifs at h with h1 h2
        injection h with h
        subst h
        refine ⟨rfl, ?_⟩
        simp only [int_validation, hc, ite_true, pyIntCast, hi]
        rw [if_neg h1, if_neg h2]

theorem uuid_validation_ok (k : String) (val : Value) (v' : Value)
    (h : uuid_validation k val = .ok v') :
    v' = val ∧ valIsNull v' = false ∧ uuid_validation k v' = .ok v' := by
  cases val with
  | str s =>
    simp only [uuid_validation] at h
    split_ifs at h with h1
    injection h with h
    subst h
    exact ⟨rfl, rfl, by simp [uuid_validation, h1]⟩
  | null => simp [uuid_validation] at h
  | bool b => simp [uuid_validation] at h
  | int n => simp [uuid_validation] at h
  | list items => simp [uuid_validation] at h
  | dict entries => simp [uuid_validation] at h

theorem list_validation_ok (k : String) (val : Value) (a : ValArgs) (v' : Value)
    (h : list_validation k val a = .ok v') :
    ∃ xs, val = .list xs ∧ v' = .list xs ∧
      ∀ ys : List Value, ys.length = xs.length →
        list_validation k (.list ys) a = .ok (.list ys) := by
  cases val with
  | list xs =>
    simp only [list_validation] at h
    split_ifs at h with h1 h2
    injection h with h
    subst h
    refine ⟨xs, rfl, rfl, ?_⟩
    intro ys hlen
    simp only [list_validation]
    rw [if_neg (by rw [hlen]; exact h1), if_neg (by rw [hlen]; exact h2)]
  | null => simp [list_validation] at h
  | bool b => simp [list_validation] at h
  | int n => simp [list_validation] at h
  | str s => simp [list_validation] at h
  | dict entries => simp [list_validation] at h

theorem all_comp_fst (f : String → Bool) :
    ∀ l : List (String × Value), (l.all fun e => f e.1) = (l.map Prod.fst).all f := by
  intro l
  induction l with
  | nil => rfl
  | cons p r ih => simp [List.all_cons, ih]

theorem dict_validation_ok (k : String) (val : Value) (a : ValArgs) (v' : Value)
    (h : dict_validation k val a = .ok v') :
    ∃ ds, val = .dict ds ∧ v' = .dict ds ∧
      ∀ ds' : List (String × Value), ds'.map Prod.fst = ds.map Prod.fst →
        dict_validation k (.dict ds') a = .ok (.dict ds') := by
  cases val with
  | dict ds =>
    simp only [dict_validation] at h
    split_ifs at h with h1 h2 h3
    injection h with h
    subst h
    refine ⟨ds, rfl, rfl, ?_⟩
    intro ds' hkeys
    have hlen : ds'.length = ds.length := by
      have := congrArg List.length hkeys
      simpa using this
    have hall : ∀ r : PyRegex, (ds'.all fun e => r.accepts e.1) = (ds.all fun e => r.accepts e.1) := by
      intro r
      rw [all_comp_fst r.accepts ds', all_comp_fst r.accepts ds, hkeys]
    simp only [dict_validation]
    rw [if_neg (by rw [hlen]; exact h1), if_neg (by rw [hlen]; exact h2), if_neg ?hkr]
    case hkr =>
      cases hkr0 : a.key_regex with
      | none => simp
      | some r =>
        rw [hkr0] at h3
        simp only [Option.any_some] at h3 ⊢
        rw [hall r]
        exact h3
  | null => simp [dict_validation] at h
  | bool b => simp [dict_validation] at h
  | int n => simp [dict_validation] at h
  | str s => simp [dict_validation] at h
  | list items => simp [dict_validation] at h

theorem registered_inv (name : String) (f : String → Value → ValArgs → Except PyErr Value)
    (h : registered_functions name = some f) :
    f = int_validation ∨ f = str_validation ∨
    f = (fun key val _ => uuid_validation key val) ∨
    f = list_validation ∨ f = dict_validation := by
  simp only [registered_functions] at h
  split_ifs at h <;> (injection h with h; subst h; tauto)

theorem registered_validator_ok (name : String)
    (f : String → Value → ValArgs → Except PyErr Value)
    (hreg : registered_functions name = some f)
    (k : String) (val : Value) (a : ValArgs) (v' : Value)
    (h : f k val a = .ok v') :
    valIsNull v' = false ∧ f k v' a = .ok v' := by
  rcases registered_inv name f hreg with rfl | rfl | rfl | rfl | rfl
  · exact int_validation_ok k val a v' h
  · obtain ⟨_, hnn, hre⟩ := str_validation_ok k val a v' h
    exact ⟨hnn, hre⟩
  · obtain ⟨_, hnn, hre⟩ := uuid_validation_ok k val v' h
    exact ⟨hnn, hre⟩
  · obtain ⟨xs, _, hv', hstable⟩ := list_validation_ok k val a v' h
    subst hv'
    exact ⟨rfl, hstable xs rfl⟩
  · obtain ⟨ds, _, hv', hstable⟩ := dict_validation_ok k val a v' h
    subst hv'
    exact ⟨rfl, hstable ds rfl⟩

theorem registered_validator_dict_stable (name : String)
    (f : String → Value → ValArgs → Except PyErr Value)
    (hreg : registered_functions name = some f)
    (k : String) (ds : List (String × Value)) (a : ValArgs) (w : Value)
    (h : f k (.dict ds) a = .ok w) :
    ∀ ds' : List (String × Value), ds'.map Prod.fst = ds.map Prod.fst →
      f k (.dict ds') a = .ok (.dict ds') := by
  rcases registered_inv name f hreg with rfl | rfl | rfl | rfl | rfl
  · cases hc : a.cast with
    | false => simp [int_validation, hc, pyIsInstInt] at h
    | true => simp [int_validation, hc, pyIntCast] at h
  · simp [str_validation] at h
  · simp [uuid_validation] at h
  · simp [list_validation] at h
  · obtain ⟨ds0, heq, _, hstable⟩ := dict_validation_ok k (.dict ds) a w h
    injection heq with heq
    subst heq
    exact hstable

theorem get_validation_func_inv (item : SchemaNode)
    (vf : String → Value → ValArgs → Except PyErr Value)
    (h : get_validation_func item = .ok vf) :
    ∃ name, item.validator = some name ∧ registered_functions name = some vf := by
  cases hv : item.validator with
  | none => simp [get_validation_func, hv] at h
  | some name =>
    simp only [get_validation_func, hv] at h
    cases hr : registered_functions name with
    | none => rw [hr] at h; cases h
    | some f =>
      rw [hr] at h
      injection h with h
      subst h
      exact ⟨name, rfl, hr⟩

theorem listElemStep_id (k : String) (f : String → Value → ValArgs → Except PyErr Value)
    (a : ValArgs) (e : Value) :
    listElemStep k f a (fun x => .ok x) (fun x => .ok x) e = f k e a := by
  simp only [listElemStep]
  cases f k e a <;> rfl

theorem listLoop_noskip_ok (k : String) (f : String → Value → ValArgs → Except PyErr Value)
    (a : ValArgs) (pre post : Value → Except PyErr Value) :
    ∀ (xs : List Value) (lst : List Value),
      listLoop k f a pre post false xs = .ok lst →
      List.Forall₂ (fun e v' => listElemStep k f a pre post e = .ok v') xs lst := by
  intro xs
  induction xs with
  | nil =>
    intro lst h
    simp only [listLoop] at h
    cases h
    exact List.Forall₂.nil
  | cons e es ih =>
    intro lst h
    simp only [listLoop] at h
    cases hs : listElemStep k f a pre post e with
    | ok v =>
      rw [hs] at h
      cases ht : listLoop k f a pre post false es with
      | error er => rw [ht] at h; cases h
      | ok t =>
        rw [ht] at h
        cases h
        exact List.Forall₂.cons hs (ih t ht)
    | error er =>
      rw [hs] at h
      cases er with
      | invalid m => simp at h
      | typeError m => cases h
      | valueError m => cases h
      | attributeError m => cases h
      | runtimeError m => cases h

theorem listLoop_self (k : String) (f : String → Value → ValArgs → Except PyErr Value)
    (a : ValArgs) (pre post : Value → Except PyErr Value) (skip : Bool) :
    ∀ lst : List Value, (∀ v ∈ lst, listElemStep k f a pre post v = .ok v) →
      listLoop k f a pre post skip lst = .ok lst := by
  intro lst
  induction lst with
  | nil => intro _; rfl
  | cons v vs ih =>
    intro h
    have hv := h v (by simp)
    have hvs := ih (fun v' hv' => h v' (by simp [hv']))
    simp [listLoop, hv, hvs]

theorem listDictsLoopL_noskip_ok
    (recv : Value → Schema → Except PyErr (List (String × Value)))
    (item : SchemaNode) (ns : Schema) (hsk : item.skip_failed = false) :
    ∀ (elems : List Value) (subs : List Value),
      listDictsLoopL recv item ns (fun x => .ok x) (fun x => .ok x) elems = .ok subs →
      List.Forall₂ (fun e s => ∃ sub, recv e ns = .ok sub ∧ s = .dict sub) elems subs := by
  intro elems
  induction elems with
  | nil =>
    intro subs h
    simp only [listDictsLoopL] at h
    cases h
    exact List.Forall₂.nil
  | cons e es ih =>
    intro subs h
    simp only [listDictsLoopL] at h
    cases hrec : recv e ns with
    | error er =>
      rw [hrec] at h
      cases er with
      | invalid m => rw [hsk] at h; simp at h
      | typeError m => cases h
      | valueError m => cases h
      | attributeError m => cases h
      | runtimeError m => cases h
    | ok sub =>
      rw [hrec] at h
      cases ht : listDictsLoopL recv item ns (fun x => .ok x) (fun x => .ok x) es with
      | error er => rw [ht] at h; cases h
      | ok t =>
        rw [ht] at h
        cases h
        exact List.Forall₂.cons ⟨sub, hrec, rfl⟩ (ih t ht)

theorem listDictsLoopL_self
    (recv : Value → Schema → Except PyErr (List (String × Value)))
    (item : SchemaNode) (ns : Schema) :
    ∀ subs : List Value,
      (∀ s ∈ subs, ∃ sub, s = .dict sub ∧ recv (.dict sub) ns = .ok sub) →
      listDictsLoopL recv item ns (fun x => .ok x) (fun x => .ok x) subs = .ok subs := by
  intro subs
  induction subs with
  | nil => intro _; rfl
  | cons s ss ih =>
    intro h
    obtain ⟨sub, rfl, hrec⟩ := h s (by simp)
    have hss := ih (fun s' hs' => h s' (by simp [hs']))
    simp [listDictsLoopL, hrec, hss]

theorem asoLoopL_self
    (recv : Value → Schema → Except PyErr (List (String × Value))) (ns : Schema) :
    ∀ ops : List (String × Value),
      (∀ q ∈ ops, ∃ sub, q.2 = .dict sub ∧ recv (.dict sub) ns = .ok sub) →
      asoLoopL recv ns ops = .ok ops := by
  intro ops
  induction ops with
  | nil => intro _; rfl
  | cons q qs ih =>
    intro h
    obtain ⟨nk, nv⟩ := q
    obtain ⟨sub, hval, hrec⟩ := h (nk, nv) (by simp)
    simp only at hval
    subst hval
    have hqs := ih (fun q' hq' => h q' (by simp [hq']))
    simp [asoLoopL, hrec, hqs]

theorem forall2_right_mem {α β : Type} {R : α → β → Prop} :
    ∀ {xs : List α} {ys : List β}, List.Forall₂ R xs ys → ∀ y ∈ ys, ∃ x, R x y := by
  intro xs ys h
  induction h with
  | nil => intro y hy; cases hy
  | cons h1 _ ih =>
    intro y hy
    rcases List.mem_cons.1 hy with rfl | hy'
    · exact ⟨_, h1⟩
    · exact ih y hy'

theorem nodeRestricted_fields (v : Option String) (a : ValArgs) (n : Option Schema)
    (l ld aso o : Bool) (d : Option Value) (nb : Bool) (pre post : Option String) (sk : Bool)
    (h : nodeRestricted (.mk v a n l ld aso o d nb pre post sk) = true) :
    d = none ∧ pre = none ∧ post = none ∧ sk = false ∧
    (ld = true → v = some "list") ∧ ((ld = true ∨ aso = true) → o = true) ∧
    (∀ ns, n = some ns → entriesRestricted ns = true) := by
  unfold nodeRestricted at h
  simp only [Bool.and_eq_true, Option.isNone_iff_eq_none,
    Bool.not_eq_true', Bool.or_eq_true] at h
  obtain ⟨⟨⟨⟨⟨⟨hd, hpre⟩, hpost⟩, hsk⟩, hldv⟩, ho⟩, hn⟩ := h
  refine ⟨hd, hpre, hpost, hsk, ?_, ?_, ?_⟩
  · intro hld
    rcases hldv with hld' | hbeq
    · rw [hld] at hld'; cases hld'
    · exact eq_of_beq hbeq
  · intro hor
    rcases ho with hno | ho'
    · exfalso
      rcases hor with h1 | h1 <;> simp_all
    · exact ho'
  · intro ns hns
    rw [hns] at hn
    exact hn

theorem processKeyL_idem
    (recv : Value → Schema → Except PyErr (List (String × Value)))
    (Hrecv : ∀ ns x out', entriesRestricted ns = true → recv x ns = .ok out' →
      recv (.dict out') ns = .ok out')
    (k : String) (item : SchemaNode) (hres : nodeRestricted item = true)
    (es es' : List (String × Value)) (r : Option Value)
    (hr : processKeyL recv (.dict es) k item = .ok r)
    (hlook : dictLookup es' k = r) :
    processKeyL recv (.dict es') k item = .ok r := by
  obtain ⟨v, a, n, l, ld, aso, o, d, nb, pre, post, sk⟩ := item
  obtain ⟨hd, hpre, hpost, hsk, hldv, hopt, hnr⟩ :=
    nodeRestricted_fields v a n l ld aso o d nb pre post sk hres
  subst hd hpre hpost hsk
  cases hg : dictLookup es k with
  | none =>
    simp only [processKeyL, pyGetItem, hg, SchemaNode.default_value, SchemaNode.optional] at hr
    cases ho : o with
    | false => rw [ho] at hr; simp at hr
    | true =>
      rw [ho] at hr
      simp only [ite_true] at hr
      injection hr with hr
      subst hr
      simp [processKeyL, pyGetItem, hlook, SchemaNode.default_value, SchemaNode.optional, ho]
  | some val =>
    simp only [processKeyL, pyGetItem, hg, SchemaNode.null_able, SchemaNode.validator,
      SchemaNode.args, SchemaNode.nested, SchemaNode.list, SchemaNode.list_dicts,
      SchemaNode.aso_array, SchemaNode.skip_failed] at hr
    cases hnull : valIsNull val && nb with
    | true =>
      rw [hnull] at hr
      simp only [ite_true] at hr
      injection hr with hr
      subst hr
      obtain ⟨hvn, hnb⟩ : valIsNull val = true ∧ nb = true := by simpa using hnull
      simp [processKeyL, pyGetItem, hlook, valIsNull, hnb, SchemaNode.null_able]
    | false =>
      rw [hnull] at hr
      simp only [Bool.false_eq_true, ite_false] at hr
      cases hgv : get_validation_func (SchemaNode.mk v a n l ld aso o none nb none none false) with
      | error e => rw [hgv] at hr; cases hr
      | ok vf =>
        rw [hgv] at hr
        have hgp : get_transformation_func (SchemaNode.mk v a n l ld aso o none nb none none false)
            "pre_transform" = .ok (fun x => .ok x) := rfl
        have hgt : get_transformation_func (SchemaNode.mk v a n l ld aso o none nb none none false)
            "transform" = .ok (fun x => .ok x) := rfl
        simp only [hgp, hgt] at hr
        obtain ⟨name, hv, hregf⟩ := get_validation_func_inv _ vf hgv
        simp only [SchemaNode.validator] at hv
        subst hv
        cases n with
        | none =>
          -- leaf branch
          simp only at hr
          cases hw : vf k val a with
          | error e => rw [hw] at hr; cases hr
          | ok v' =>
            rw [hw] at hr
            simp only at hr
            injection hr with hr
            subst hr
            obtain ⟨hnn, hidem⟩ := registered_validator_ok name vf hregf k val a v' hw
            have hnull' : (valIsNull v' && nb) = false := by simp [hnn]
            simp only [processKeyL, pyGetItem, hlook, hnull', Bool.false_eq_true, ite_false,
              SchemaNode.null_able, SchemaNode.validator, SchemaNode.args, SchemaNode.nested,
              hgv, hgp, hgt]
            simp [hidem]
        | some ns =>
          have hnsr : entriesRestricted ns = true := hnr ns rfl
          cases l with
          | true =>
            -- plain list branch
            simp only [if_true] at hr
            cases hit : pyIter val with
            | error e => rw [hit] at hr; cases hr
            | ok elems =>
              rw [hit] at hr
              simp only at hr
              cases hll : listLoop k vf a (fun x => .ok x) (fun x => .ok x) false elems with
              | error e => rw [hll] at hr; cases hr
              | ok lst =>
                rw [hll] at hr
                simp only at hr
                injection hr with hr
                subst hr
                have hf2 := listLoop_noskip_ok k vf a (fun x => .ok x) (fun x => .ok x) elems lst hll
                have hself : ∀ w ∈ lst, listElemStep k vf a (fun x => .ok x) (fun x => .ok x) w = .ok w := by
                  intro w hw
                  obtain ⟨e, he⟩ := forall2_right_mem hf2 w hw
                  rw [listElemStep_id] at he
                  obtain ⟨_, hidem⟩ := registered_validator_ok name vf hregf k e a w he
                  rw [listElemStep_id]
                  exact hidem
                have hloop := listLoop_self k vf a (fun x => .ok x) (fun x => .ok x) false lst hself
                simp only [processKeyL, pyGetItem, hlook, valIsNull, Bool.false_and,
                  Bool.false_eq_true, ite_false, SchemaNode.null_able, SchemaNode.validator,
                  SchemaNode.args, SchemaNode.nested, SchemaNode.list, SchemaNode.skip_failed,
                  hgv, hgp, hgt, if_true, pyIter]
                simp [hloop]
          | false =>
            cases ld with
            | true =>
              -- list_dicts branch
              have hvl : name = "list" := by
                have := hldv rfl
                injection this
              subst hvl
              have hvf : vf = list_validation := by
                simp only [registered_functions, if_neg, if_pos] at hregf
                · injection hregf with h2
                  exact h2.symm
              subst hvf
              simp only [Bool.false_eq_true, ite_false, if_true] at hr
              cases hw : list_validation k val a with
              | error e => rw [hw] at hr; cases hr
              | ok w =>
                rw [hw] at hr
                simp only at hr
                obtain ⟨xs, hval, hw', hstable⟩ := list_validation_ok k val a w hw
                subst hval
                simp only [pyIter] at hr
                cases xs with
                | nil =>
                  simp only at hr
                  injection hr with hr
                  subst hr
                  have ho : o = true := hopt (Or.inl rfl)
                  simp [processKeyL, pyGetItem, hlook, SchemaNode.default_value,
                    SchemaNode.optional, ho]
                | cons x xs' =>
                  simp only at hr
                  cases hld2 : listDictsLoopL recv
                      (SchemaNode.mk (some "list") a (some ns) false true aso o none nb none none false)
                      ns (fun x => .ok x) (fun x => .ok x) (x :: xs') with
                  | error e => rw [hld2] at hr; cases hr
                  | ok subs =>
                    rw [hld2] at hr
                    simp only at hr
                    injection hr with hr
                    subst hr
                    have hf2 := listDictsLoopL_noskip_ok recv _ ns (by rfl) (x :: xs') subs hld2
                    have hlen := List.Forall₂.length_eq hf2
                    have hlv := hstable subs (by omega)
                    have hself : ∀ s ∈ subs, ∃ sub, s = .dict sub ∧ recv (.dict sub) ns = .ok sub := by
                      intro s hs
                      obtain ⟨e, sub, hrec, hsd⟩ := forall2_right_mem hf2 s hs
                      exact ⟨sub, hsd, Hrecv ns e sub hnsr hrec⟩
                    have hloop := listDictsLoopL_self recv
                      (SchemaNode.mk (some "list") a (some ns) false true aso o none nb none none false)
                      ns subs hself
                    cases subs with
                    | nil => simp at hlen
                    | cons s0 srest =>
                      simp only [processKeyL, pyGetItem, hlook, valIsNull, Bool.false_and,
                        Bool.false_eq_true, ite_false, SchemaNode.null_able, SchemaNode.validator,
                        SchemaNode.args, SchemaNode.nested, SchemaNode.list, SchemaNode.list_dicts,
                        hgv, hgp, hgt, hlv, pyIter]
                      simp [hloop]
            | false =>
              cases aso with
              | false =>
                -- plain nested branch
                simp only [Bool.false_eq_true, ite_false, Bool.not_false, if_true] at hr
                cases hrec : recv val ns with
                | error e => rw [hrec] at hr; cases hr
                | ok sub =>
                  rw [hrec] at hr
                  simp only at hr
                  injection hr with hr
                  subst hr
                  have hrecurse := Hrecv ns val sub hnsr hrec
                  simp only [processKeyL, pyGetItem, hlook, valIsNull, Bool.false_and,
                    Bool.false_eq_true, ite_false, Bool.not_false, if_true,
                    SchemaNode.null_able, SchemaNode.validator, SchemaNode.args,
                    SchemaNode.nested, SchemaNode.list, SchemaNode.list_dicts,
                    SchemaNode.aso_array, hgv, hgp, hgt]
                  simp [hrecurse]
              | true =>
                -- aso_array branch
                simp only [Bool.false_eq_true, ite_false, Bool.not_true] at hr
                cases hw : vf k val a with
                | error e => rw [hw] at hr; cases hr
                | ok w =>
                  rw [hw] at hr
                  cases val with
                  | dict ps =>
                    cases ps with
                    | nil =>
                      simp only at hr
                      injection hr with hr
                      subst hr
                      have ho : o = true := hopt (Or.inr rfl)
                      simp [processKeyL, pyGetItem, hlook, SchemaNode.default_value,
                        SchemaNode.optional, ho]
                    | cons p0 prest =>
                      simp only at hr
                      cases hal : asoLoopL recv ns (p0 :: prest) with
                      | error e => rw [hal] at hr; cases hr
                      | ok ops =>
                        rw [hal] at hr
                        simp only at hr
                        injection hr with hr
                        subst hr
                        have hf2 := asoLoopL_ok recv ns (p0 :: prest) ops hal
                        have hlen := List.Forall₂.length_eq hf2
                        have hkeys := forall2_fst_eq (fun p q hpq => hpq.1) hf2
                        have hdv := registered_validator_dict_stable name vf hregf k
                          (p0 :: prest) a w hw ops hkeys
                        have hself : ∀ q ∈ ops, ∃ sub, q.2 = .dict sub ∧ recv (.dict sub) ns = .ok sub := by
                          intro q hq
                          obtain ⟨p, _, sub, hrec, hqd⟩ := forall2_right_mem hf2 q hq
                          exact ⟨sub, hqd, Hrecv ns p.2 sub hnsr hrec⟩
                        have hloop := asoLoopL_self recv ns ops hself
                        cases ops with
                        | nil => simp at hlen
                        | cons q0 qrest =>
                          simp only [processKeyL, pyGetItem, hlook, valIsNull, Bool.false_and,
                            Bool.false_eq_true, ite_false, Bool.not_true,
                            SchemaNode.null_able, SchemaNode.validator, SchemaNode.args,
                            SchemaNode.nested, SchemaNode.list, SchemaNode.list_dicts,
                            SchemaNode.aso_array, hgv, hgp, hgt, hdv]
                          simp [hloop]
                  | null => simp at hr
                  | bool b => simp at hr
                  | int m => simp at hr
                  | str s => simp at hr
                  | list items => simp at hr

theorem processKeyL_dict_ext
    (recv : Value → Schema → Except PyErr (List (String × Value)))
    (k : String) (item : SchemaNode) (es es' : List (String × Value))
    (h : dictLookup es k = dictLookup es' k) :
    processKeyL recv (.dict es) k item = processKeyL recv (.dict es') k item := by
  cases hd : dictLookup es' k with
  | none => simp only [processKeyL, pyGetItem, h, hd]
  | some val => simp only [processKeyL, pyGetItem, h, hd]

theorem scaleEntriesL_dict_ext
    (recv : Value → Schema → Except PyErr (List (String × Value))) :
    ∀ (entries : Schema) (es es' : List (String × Value)),
      (∀ k ∈ entries.keys, dictLookup es k = dictLookup es' k) →
      scaleEntriesL recv (.dict es) entries = scaleEntriesL recv (.dict es') entries := by
  intro entries
  induction entries using schemaEntriesInd with
  | nil => intro es es' _; rfl
  | cons k item rest ih =>
    intro es es' h
    have hk := h k (by simp [SchemaEntries.keys])
    have hrest := ih es es' (fun k' hk' => h k' (by simp [SchemaEntries.keys, hk']))
    simp only [scaleEntriesL]
    rw [processKeyL_dict_ext recv k item es es' hk, hrest]

theorem entriesRestricted_parts (k : String) (item : SchemaNode) (rest : Schema)
    (h : entriesRestricted (.cons k item rest) = true) :
    ((SchemaEntries.keys rest).contains k) = false ∧
    nodeRestricted item = true ∧ entriesRestricted rest = true := by
  unfold entriesRestricted at h
  simp only [Bool.and_eq_true, Bool.not_eq_true'] at h
  exact ⟨h.1.1, h.1.2, h.2⟩

theorem scaleEntriesL_idem
    (recv : Value → Schema → Except PyErr (List (String × Value)))
    (Hrecv : ∀ ns x out', entriesRestricted ns = true → recv x ns = .ok out' →
      recv (.dict out') ns = .ok out') :
    ∀ (entries : Schema) (es out : List (String × Value)),
      entriesRestricted entries = true →
      scaleEntriesL recv (.dict es) entries = .ok out →
      scaleEntriesL recv (.dict out) entries = .ok out := by
  intro entries
  induction entries using schemaEntriesInd with
  | nil =>
    intro es out _ h
    simp only [scaleEntriesL] at h
    cases h
    rfl
  | cons k item rest ih =>
    intro es out hres h
    obtain ⟨hkout, hni, hrr⟩ := entriesRestricted_parts k item rest hres
    have hknotin : k ∉ SchemaEntries.keys rest := by
      simpa using hkout
    simp only [scaleEntriesL] at h
    cases hp : processKeyL recv (.dict es) k item with
    | error e => rw [hp] at h; cases h
    | ok r =>
      rw [hp] at h
      cases r with
      | none =>
        have hlook : dictLookup out k = none := by
          rw [dictLookup_eq_none_iff]
          intro hmem
          exact hknotin (scaleEntriesL_keys_sub recv (.dict es) rest out h k hmem)
        have hp' := processKeyL_idem recv Hrecv k item hni es out none hp hlook
        have hrest := ih es out hrr h
        simp only [scaleEntriesL, hp']
        exact hrest
      | some v =>
        cases ht : scaleEntriesL recv (.dict es) rest with
        | error e => rw [ht] at h; cases h
        | ok tail =>
          rw [ht] at h
          cases h
          have hlook : dictLookup ((k, v) :: tail) k = some v := by simp [dictLookup]
          have hp' := processKeyL_idem recv Hrecv k item hni es ((k, v) :: tail) (some v) hp hlook
          have htail := ih es tail hrr ht
          have hagree : ∀ k' ∈ rest.keys, dictLookup ((k, v) :: tail) k' = dictLookup tail k' := by
            intro k' hk'
            have : k ≠ k' := fun he => hknotin (he ▸ hk')
            simp [dictLookup, this]
          have hrest : scaleEntriesL recv (.dict ((k, v) :: tail)) rest = .ok tail := by
            rw [scaleEntriesL_dict_ext recv rest ((k, v) :: tail) tail hagree]
            exact htail
          simp only [scaleEntriesL, hp', hrest]

theorem maat_scaleF_idem :
    ∀ (fuel : Nat) (cd : Schema) (x : Value) (out : List (String × Value)),
      entriesRestricted cd = true →
      maat_scaleF fuel x cd = .ok out →
      maat_scaleF fuel (.dict out) cd = .ok out := by
  intro fuel
  induction fuel with
  | zero =>
    intro cd x out _ h
    simp [maat_scaleF] at h
  | succ f ih =>
    intro cd x out hres h
    rw [maat_scaleF_succ] at h ⊢
    cases cd with
    | nil =>
      simp only [scaleEntriesL] at h
      cases h
      rfl
    | cons k item rest =>
      cases x with
      | dict es =>
        exact scaleEntriesL_idem (maat_scaleF f)
          (fun ns x' out' hr hok => ih ns x' out' hr hok) (.cons k item rest) es out hres h
      | null => simp [scaleEntriesL, processKeyL, pyGetItem] at h
      | bool b => simp [scaleEntriesL, processKeyL, pyGetItem] at h
      | int n => simp [scaleEntriesL, processKeyL, pyGetItem] at h
      | str s => simp [scaleEntriesL, processKeyL, pyGetItem] at h
      | list items => simp [scaleEntriesL, processKeyL, pyGetItem] at h

/-- C6 amended: idempotence holds on the restricted schema class of
`entriesRestricted` — no `default_value` (the counterexample shows an
unvalidated default breaks it), no `pre_transform`/`transform` (they
re-apply on re-validation), no `skip_failed` (a shortened list can
re-fail a length bound), `list_dicts` nodes use the `list` validator,
`list_dicts`/`aso_array` nodes are optional (their key is dropped for
an empty collection, so the re-run must be allowed to skip it), and
keys are unique per level.  On that class, re-validating a successful
output against the same schema succeeds and returns it unchanged. -/
theorem maat_scale_idem_restricted (cd : Schema) (x : Value) (out : List (String × Value))
    (hres : entriesRestricted cd = true) (h : maat_scale x cd = .ok out) :
    maat_scale (.dict out) cd = .ok out :=
  maat_scaleF_idem (entriesFuel cd + 1) cd x out hres h

theorem maat_scale_idem_restricted_witness :
    entriesRestricted
      (.cons "id" (.mk (some "int") { min_amount := some 1 } none false false false false none false none none false)
        (.cons "name" (.mk (some "str") { min_length := some 1, max_length := some 35 } none false false false false none false none none false) .nil)) = true ∧
    maat_scale
        (.dict [("id", .int 23), ("name", .str "John Doe")])
        (.cons "id" (.mk (some "int") { min_amount := some 1 } none false false false false none false none none false)
          (.cons "name" (.mk (some "str") { min_length := some 1, max_length := some 35 } none false false false false none false none none false) .nil))
      = .ok [("id", .int 23), ("name", .str "John Doe")] ∧
    maat_scale
        (.dict [("id", .int 23), ("name", .str "John Doe")])
        (.cons "id" (.mk (some "int") { min_amount := some 1 } none false false false false none false none none false)
          (.cons "name" (.mk (some "str") { min_length := some 1, max_length := some 35 } none false false false false none false none none false) .nil))
      = .ok [("id", .int 23), ("name", .str "John Doe")] :=
  ⟨rfl, rfl,
   maat_scale_idem_restricted
     (.cons "id" (.mk (some "int") { min_amount := some 1 } none false false false false none false none none false)
       (.cons "name" (.mk (some "str") { min_length := some 1, max_length := some 35 } none false false false false none false none none false) .nil))
     (.dict [("id", .int 23), ("name", .str "John Doe")])
     [("id", .int 23), ("name", .str "John Doe")]
     rfl rfl⟩
